import Mathlib

/-!
Verification of the safetensors Go codec (github.com/nlpodyssey/safetensors).

The repository contains two generations of the library, both present in the
sources:

* the map-based generation ("V1" below): `safetensors.go`, `view.go`,
  `tensorinfo.go`, `math.go`, and the unnamed parts holding `DType`,
  `TensorView` and `Metadata` (`part_000`, `part_007`);
* the header-package generation ("V2" below): `header/…`, `dtype` enum
  (`part_008`), `read.go`, `serialize.go`, `tensor.go`, `rawtensor.go`
  and the lazy reader (`part_004`).

Machine integers are embedded as `Nat` / `Int` with explicit reductions
modulo `2^64` where Go's `uint64`/`uint` arithmetic wraps, and with
`wrap64` for Go's two's-complement `int` arithmetic.  Go maps are embedded
as association lists.  The JSON wire codec provided by Go's standard
library `encoding/json` (which is external to this repository) is embedded
at two levels: a structural level for the V1 round trip (the header region
of a byte buffer is represented by the decoded JSON object together with
the amount of padding), and a byte level — including an executable JSON
parser modelling `json.Decoder` — for the header framing checks of
`header.Read`.
-/

instance instDecEqExcept {e a : Type} [DecidableEq e] [DecidableEq a] :
    DecidableEq (Except e a) := fun x y =>
  match x, y with
  | .error e₁, .error e₂ =>
    if h : e₁ = e₂ then isTrue (congrArg Except.error h)
    else isFalse fun hc => h (Except.error.inj hc)
  | .ok a₁, .ok a₂ =>
    if h : a₁ = a₂ then isTrue (congrArg Except.ok h)
    else isFalse fun hc => h (Except.ok.inj hc)
  | .error _, .ok _ => isFalse fun hc => Except.noConfusion hc
  | .ok _, .error _ => isFalse fun hc => Except.noConfusion hc

namespace V1

/-- DType of the map-based generation (`part_000`); the constructor order is
the `iota` order of the Go source, which is "increasing alignment order". -/
inductive DType
  | BOOL | U8 | I8 | I16 | U16 | F16 | BF16 | I32 | U32 | F32 | F64 | I64 | U64
deriving DecidableEq, Repr

/-- Numeric value of the `DType` constant (its `iota` value). -/
def DType.code : DType → Nat
  | .BOOL => 0 | .U8 => 1 | .I8 => 2 | .I16 => 3 | .U16 => 4 | .F16 => 5
  | .BF16 => 6 | .I32 => 7 | .U32 => 8 | .F32 => 9 | .F64 => 10 | .I64 => 11
  | .U64 => 12

/-- `DType.Size` from `part_000`: `dTypeToSize` table. -/
def DType.size : DType → Nat
  | .BOOL => 1 | .U8 => 1 | .I8 => 1 | .I16 => 2 | .U16 => 2 | .F16 => 2
  | .BF16 => 2 | .I32 => 4 | .U32 => 4 | .F32 => 4 | .F64 => 8 | .I64 => 8
  | .U64 => 8

inductive MulErr
  | overflow (a b : Nat)
deriving DecidableEq, Repr

/-- `checkedMul` from `src/math.go`: `uint64` multiplication; the raw Go
product `c := a * b` wraps modulo `2^64`, and overflow is detected by the
division-back check `a > 1 && b > 1 && c/a != b`. -/
def checkedMul (a b : Nat) : Except MulErr Nat :=
  if a > 1 ∧ b > 1 ∧ (a * b % 2 ^ 64) / a ≠ b then .error (.overflow a b)
  else .ok (a * b % 2 ^ 64)

end V1

namespace V2

inductive AddErr
  | negative
  | sumOverflow
deriving DecidableEq, Repr

/-- `checkedAddNonNegInt64` from `part_004` (lazy reader): addition of two
non-negative `int64` values.  `bits.Add64` on the `uint64` reinterpretations
yields `sum = (a+b) % 2^64` and a carry flag `(a+b) / 2^64`; the result must
also stay within `math.MaxInt64 = 2^63 - 1`. -/
def checkedAddNonNegInt64 (a b : Int) : Except AddErr Int :=
  if a < 0 ∨ b < 0 then .error .negative
  else if a = 0 ∨ b = 0 then .ok (a + b)
  else
    let sum := (a.toNat + b.toNat) % 2 ^ 64
    let carry := (a.toNat + b.toNat) / 2 ^ 64
    if carry ≠ 0 ∨ sum > 2 ^ 63 - 1 then .error .sumOverflow
    else .ok (sum : Nat)

end V2

section C6Proof

/-- Helper: for `2 ≤ a` and `2 ≤ b`, the division-back overflow check of
`checkedMul` is exact. -/
theorem checkedMul_eq (a b : Nat) (ha : a < 2 ^ 64) (hb : b < 2 ^ 64) :
    V1.checkedMul a b =
      if a * b < 2 ^ 64 then .ok (a * b) else .error (.overflow a b) := by
  unfold V1.checkedMul
  by_cases hfit : a * b < 2 ^ 64
  · have hc : a * b % 2 ^ 64 = a * b := Nat.mod_eq_of_lt hfit
    rw [if_pos hfit, if_neg]
    · rw [hc]
    · rw [hc]
      rintro ⟨h1, h2, h3⟩
      exact h3 (by rw [Nat.mul_comm]; exact Nat.mul_div_cancel _ (by omega))
  · -- overflow: since a*b ≥ 2^64 we must have a ≥ 2 and b ≥ 2
    have hof : 2 ^ 64 ≤ a * b := Nat.le_of_not_lt hfit
    have ha2 : 1 < a := by
      rcases Nat.lt_or_ge 1 a with h | h
      · exact h
      · exfalso
        have hle : a * b ≤ b := by
          calc a * b ≤ 1 * b := Nat.mul_le_mul_right b h
            _ = b := Nat.one_mul b
        omega
    have hb2 : 1 < b := by
      rcases Nat.lt_or_ge 1 b with h | h
      · exact h
      · exfalso
        have hle : a * b ≤ a := by
          calc a * b ≤ a * 1 := Nat.mul_le_mul_left a h
            _ = a := Nat.mul_one a
        omega
    have hmod : a * b % 2 ^ 64 < a * b :=
      Nat.lt_of_lt_of_le (Nat.mod_lt _ (by positivity)) hof
    have hdiv : a * b % 2 ^ 64 / a < b := by
      rw [Nat.div_lt_iff_lt_mul (by omega : 0 < a)]
      calc a * b % 2 ^ 64 < a * b := hmod
        _ = b * a := Nat.mul_comm a b
    rw [if_neg hfit, if_pos ⟨ha2, hb2, Nat.ne_of_lt hdiv⟩]

end C6Proof

theorem checkedAdd_eq (a b : Int) (ha : a < 2 ^ 63) (hb : b < 2 ^ 63) :
    V2.checkedAddNonNegInt64 a b =
      if a < 0 ∨ b < 0 then .error .negative
      else if a + b ≤ 2 ^ 63 - 1 then .ok (a + b)
      else .error .sumOverflow := by
  unfold V2.checkedAddNonNegInt64
  by_cases hneg : a < 0 ∨ b < 0
  · rw [if_pos hneg, if_pos hneg]
  · rw [if_neg hneg, if_neg hneg]
    push_neg at hneg
    obtain ⟨ha0, hb0⟩ := hneg
    by_cases hz : a = 0 ∨ b = 0
    · rw [if_pos hz, if_pos (by omega)]
    · rw [if_neg hz]
      have hta : (a.toNat : Int) = a := Int.toNat_of_nonneg ha0
      have htb : (b.toNat : Int) = b := Int.toNat_of_nonneg hb0
      have hlt : a.toNat + b.toNat < 2 ^ 64 := by omega
      have hmod : (a.toNat + b.toNat) % 2 ^ 64 = a.toNat + b.toNat :=
        Nat.mod_eq_of_lt hlt
      have hcarry : (a.toNat + b.toNat) / 2 ^ 64 = 0 := Nat.div_eq_of_lt hlt
      simp only [hmod, hcarry]
      by_cases hof : a + b ≤ 2 ^ 63 - 1
      · rw [if_neg (by omega), if_pos hof]
        congr 1
        omega
      · rw [if_pos (by omega), if_neg hof]

/-- C6 (amended): `checkedMul` returns the exact product of any two `uint64`
operands whose mathematical product fits the unsigned 64-bit range and an
overflow error otherwise (covering the boundary operands `maxValue`,
`maxValue/2`, `0` and `1`); its addition counterpart
`checkedAddNonNegInt64`, however, operates on non-negative **signed** 64-bit
values: it rejects negative operands, returns the exact sum when it is at
most `2^63 - 1`, and reports overflow beyond that signed bound (not the
unsigned 64-bit bound the original claim states). -/
theorem c6_checked_arithmetic :
    (∀ a b : Nat, a < 2 ^ 64 → b < 2 ^ 64 →
      V1.checkedMul a b =
        if a * b < 2 ^ 64 then .ok (a * b) else .error (.overflow a b))
    ∧ (∀ a b : Int, a < 2 ^ 63 → b < 2 ^ 63 →
      V2.checkedAddNonNegInt64 a b =
        if a < 0 ∨ b < 0 then .error .negative
        else if a + b ≤ 2 ^ 63 - 1 then .ok (a + b)
        else .error .sumOverflow) :=
  ⟨fun a b ha hb => checkedMul_eq a b ha hb,
   fun a b ha hb => checkedAdd_eq a b ha hb⟩

theorem c6_checked_arithmetic_witness :
    V1.checkedMul (2 ^ 64 - 1) 1 = .ok (2 ^ 64 - 1)
    ∧ V1.checkedMul (2 ^ 64 - 1) (2 ^ 64 - 1) =
        .error (.overflow (2 ^ 64 - 1) (2 ^ 64 - 1))
    ∧ V1.checkedMul ((2 ^ 64 - 1) / 2) 2 = .ok (2 ^ 64 - 2)
    ∧ V2.checkedAddNonNegInt64 (2 ^ 63 - 1) 0 = .ok (2 ^ 63 - 1) :=
  ⟨(c6_checked_arithmetic.1 (2 ^ 64 - 1) 1 (by norm_num) (by norm_num)).trans
      (by norm_num),
   (c6_checked_arithmetic.1 (2 ^ 64 - 1) (2 ^ 64 - 1) (by norm_num)
      (by norm_num)).trans (by rw [if_neg (by norm_num)]),
   (c6_checked_arithmetic.1 ((2 ^ 64 - 1) / 2) 2 (by norm_num) (by norm_num)).trans
      (by norm_num),
   (c6_checked_arithmetic.2 (2 ^ 63 - 1) 0 (by norm_num) (by norm_num)).trans
      (by norm_num)⟩

/-- C6 counterexample: the claim asserts the addition counterpart only
overflows past the unsigned 64-bit range, but `checkedAddNonNegInt64`
rejects `2^62 + 2^62 = 2^63`, which fits comfortably in a `uint64`. -/
theorem c6_counterexample :
    V2.checkedAddNonNegInt64 (2 ^ 62) (2 ^ 62) = .error .sumOverflow
    ∧ (2 ^ 62 + 2 ^ 62 : Nat) < 2 ^ 64 := by
  refine ⟨?_, by norm_num⟩
  rfl

namespace V1

/-- `numElementsFromShape` from `part_007` (old `TensorView`): plain `uint64`
product of the entries with no overflow check; the empty shape yields `0`
(the Go function returns 0 when `len(shape) == 0`). -/
def numElementsFromShape : List Nat → Nat
  | [] => 0
  | n :: rest => rest.foldl (fun acc v => acc * v % 2 ^ 64) n

structure TensorView where
  dType : DType
  shape : List Nat
  data : List Nat
deriving DecidableEq, Repr

inductive ViewErr
  | invalidTensorView (dt : DType) (shape : List Nat) (dataLen : Nat)
deriving DecidableEq, Repr

/-- `NewTensorView` from `part_007`: accepts the view iff
`uint64(len(data)) == numElementsFromShape(shape) * dType.Size()`. -/
def NewTensorView (dType : DType) (shape : List Nat) (data : List Nat) :
    Except ViewErr TensorView :=
  if data.length % 2 ^ 64 ≠ numElementsFromShape shape * dType.size % 2 ^ 64 then
    .error (.invalidTensorView dType shape (data.length % 2 ^ 64))
  else .ok ⟨dType, shape, data⟩

end V1

namespace V2

/-- `dtype.DType.Validate` from `part_008`: the valid codes are
`Bool = 1` through `F64 = 13`. -/
def dtValid (dt : Nat) : Bool := !(dt == 0 || dt > 13)

/-- `dtype.DType.Size` from `part_008`: the `dTypeToSize` table
(`Bool U8 I8 ↦ 1`, `U16 I16 F16 BF16 ↦ 2`, `U32 I32 F32 ↦ 4`,
`U64 I64 F64 ↦ 8`), and `-1` for an invalid code. -/
def dtSize (dt : Nat) : Int :=
  if dtValid dt then
    (match dt with
      | 1 => 1 | 2 => 1 | 3 => 1
      | 4 => 2 | 5 => 2 | 6 => 2 | 7 => 2
      | 8 => 4 | 9 => 4 | 10 => 4
      | _ => 8)
  else -1

inductive TErr
  | offsetMismatch (expected actual : Int)
  | endBeforeBegin (b e : Int)
  | invalidDType (dt : Nat)
  | negShape (v : Int)
  | elemsOverflow
  | byteSizeOverflow
  | byteSizeTooLarge (n : Nat)
  | sizeMismatch (fromShape : Nat) (fromOffsets : Int)
deriving DecidableEq, Repr

inductive VErr
  | negByteBufferOffset (v : Int)
  | nameMismatch (key nm : String)
  | invalidTensor (nm : String) (e : TErr)
deriving DecidableEq, Repr

/-- Loop body of `tensorSizeFromShape` (part_003): `bits.Mul(size, uint(v))`
gives the 128-bit product, whose high word `(size*v) / 2^64` must be zero. -/
def tensorSizeLoop (size : Nat) : List Int → Except TErr Nat
  | [] => .ok size
  | v :: rest =>
    if v < 0 then .error (.negShape v)
    else if (size * v.toNat) / 2 ^ 64 ≠ 0 then .error .elemsOverflow
    else tensorSizeLoop (size * v.toNat % 2 ^ 64) rest

/-- `tensorSizeFromShape` from `part_003`: overflow-checked product of the
shape entries, starting from 1, so the empty shape counts as one scalar. -/
def tensorSizeFromShape (s : List Int) : Except TErr Nat := tensorSizeLoop 1 s

/-- `byteSizeFromShape` from `part_003` (dtype validation, element count,
`bits.Mul` with the dtype size, and the `math.MaxInt` bound). -/
def byteSizeFromShape (dt : Nat) (shape : List Int) : Except TErr Nat :=
  if !dtValid dt then .error (.invalidDType dt)
  else
    match tensorSizeFromShape shape with
    | .error e => .error e
    | .ok tensorSize =>
      if (tensorSize * (dtSize dt).toNat) / 2 ^ 64 ≠ 0 then .error .byteSizeOverflow
      else if tensorSize * (dtSize dt).toNat % 2 ^ 64 > 2 ^ 63 - 1 then
        .error (.byteSizeTooLarge (tensorSize * (dtSize dt).toNat % 2 ^ 64))
      else .ok (tensorSize * (dtSize dt).toNat % 2 ^ 64)

/-- `header.Tensor` (header/tensors.go): name, dtype code, shape (`[]int`)
and the `DataOffsets` byte range. -/
structure HTensor where
  name : String
  dType : Nat
  shape : List Int
  offBegin : Int
  offEnd : Int
deriving DecidableEq, Repr

/-- `header.Header` (header/header.go); the tensor map is embedded as an
association list in iteration order. -/
structure Header where
  tensors : List (String × HTensor)
  metadata : List (String × String)
  byteBufferOffset : Int
deriving DecidableEq, Repr

/-- Reflexive closure of `DataOffsets.Less` (header/tensors.go); the sort
`sort.Sort(TensorSliceByDataOffsets{…})` produces some order consistent
with the strict comparator, deterministically modelled by insertion sort
with this total preorder. -/
def offLe (a b : HTensor) : Prop :=
  a.offBegin < b.offBegin ∨ (a.offBegin = b.offBegin ∧ a.offEnd ≤ b.offEnd)

instance : DecidableRel offLe := fun a b => by
  unfold offLe
  infer_instance

instance : IsTotal HTensor offLe :=
  ⟨by intro a b; unfold offLe; omega⟩

instance : IsTrans HTensor offLe :=
  ⟨by intro a b c; unfold offLe; omega⟩

def sortByDataOffsets (ts : List HTensor) : List HTensor :=
  List.insertionSort offLe ts

/-- `validateTensor` from `part_003`. -/
def validateTensor (t : HTensor) (expectedBegin : Int) : Except TErr Unit :=
  if t.offBegin ≠ expectedBegin then
    .error (.offsetMismatch expectedBegin t.offBegin)
  else if t.offEnd < t.offBegin then
    .error (.endBeforeBegin t.offBegin t.offEnd)
  else
    match byteSizeFromShape t.dType t.shape with
    | .error e => .error e
    | .ok byteSize =>
      if t.offEnd - t.offBegin ≠ (byteSize : Int) then
        .error (.sizeMismatch byteSize (t.offEnd - t.offBegin))
      else .ok ()

/-- The offset walk of `validateTensors` (part_003): each tensor of the
sorted slice is checked against the running expected begin. -/
def validateWalk : List HTensor → Int → Except VErr Unit
  | [], _ => .ok ()
  | t :: rest, expectedBegin =>
    match validateTensor t expectedBegin with
    | .error e => .error (.invalidTensor t.name e)
    | .ok _ => validateWalk rest t.offEnd

/-- `validateTensorNames` from `part_003`: each map key must equal the
mapped tensor's `Name`. -/
def validateTensorNames : List (String × HTensor) → Except VErr Unit
  | [] => .ok ()
  | (k, t) :: rest =>
    if k ≠ t.name then .error (.nameMismatch k t.name)
    else validateTensorNames rest

/-- `validateTensors` from `part_003`. -/
def validateTensors (tm : List (String × HTensor)) : Except VErr Unit :=
  match validateTensorNames tm with
  | .error e => .error e
  | .ok _ => validateWalk (sortByDataOffsets (tm.map Prod.snd)) 0

/-- `Header.Validate` from `part_003`. -/
def Header.validate (h : Header) : Except VErr Unit :=
  if h.byteBufferOffset < 0 then .error (.negByteBufferOffset h.byteBufferOffset)
  else validateTensors h.tensors

end V2

namespace V2

/-- Spec-side: exact (unbounded) product of the shape entries. -/
def shapeProd (s : List Int) : Nat := (s.map Int.toNat).prod

theorem shapeProd_nil : shapeProd [] = 1 := rfl

theorem shapeProd_cons (v : Int) (s : List Int) :
    shapeProd (v :: s) = v.toNat * shapeProd s := by
  simp [shapeProd]

/-- Spec-side: contiguity of the byte ranges in the given order starting at
the given cursor: the first range begins at the cursor, each following range
begins where the previous one ends. -/
def offsetsChain : Int → List HTensor → Prop
  | _, [] => True
  | cur, t :: rest => t.offBegin = cur ∧ offsetsChain t.offEnd rest

theorem offsetsChain_cons (cur : Int) (t : HTensor) (rest : List HTensor) :
    offsetsChain cur (t :: rest) ↔
      (t.offBegin = cur ∧ offsetsChain t.offEnd rest) := Iff.rfl

instance offsetsChain.inst :
    (cur : Int) → (ts : List HTensor) → Decidable (offsetsChain cur ts)
  | _, [] => .isTrue trivial
  | cur, t :: rest =>
    haveI := offsetsChain.inst t.offEnd rest
    inferInstanceAs (Decidable (t.offBegin = cur ∧ offsetsChain t.offEnd rest))

/-- Spec-side: per-tensor validity exactly as the validator checks it:
valid dtype code, non-negative shape entries, overflow-free element count
(every prefix product below `2^64`), byte size within `math.MaxInt`, and
the declared byte range matching the computed byte size. -/
def tensorOk (t : HTensor) : Prop :=
  dtValid t.dType = true
  ∧ (∀ v ∈ t.shape, 0 ≤ v)
  ∧ (∀ i ≤ t.shape.length, shapeProd (t.shape.take i) < 2 ^ 64)
  ∧ shapeProd t.shape * (dtSize t.dType).toNat ≤ 2 ^ 63 - 1
  ∧ t.offEnd - t.offBegin = (shapeProd t.shape * (dtSize t.dType).toNat : Nat)

instance tensorOk.inst (t : HTensor) : Decidable (tensorOk t) := by
  unfold tensorOk
  infer_instance

theorem tensorSizeLoop_eq_ok_iff (s : List Int) (size r : Nat)
    (hsz : size < 2 ^ 64) :
    tensorSizeLoop size s = .ok r ↔
      ((∀ v ∈ s, 0 ≤ v)
       ∧ (∀ i ≤ s.length, size * shapeProd (s.take i) < 2 ^ 64)
       ∧ r = size * shapeProd s) := by
  induction s generalizing size r with
  | nil =>
    constructor
    · intro h
      have hr : size = r := by simpa [tensorSizeLoop] using h
      refine ⟨by simp, ?_, ?_⟩
      · intro i _
        simpa [shapeProd] using hsz
      · simp [shapeProd, ← hr]
    · rintro ⟨-, -, hr⟩
      simp [shapeProd] at hr
      simp [tensorSizeLoop, hr]
  | cons v rest ih =>
    by_cases hv : v < 0
    · simp only [tensorSizeLoop, if_pos hv]
      constructor
      · intro h
        exact absurd h (by simp)
      · rintro ⟨hnn, -, -⟩
        exact absurd (hnn v (by simp)) (by omega)
    · push_neg at hv
      by_cases hov : (size * v.toNat) / 2 ^ 64 ≠ 0
      · have hge : 2 ^ 64 ≤ size * v.toNat := by
          by_contra hcon
          push_neg at hcon
          exact hov (Nat.div_eq_of_lt hcon)
        simp only [tensorSizeLoop, if_neg (not_lt.2 hv), if_pos hov]
        constructor
        · intro h
          exact absurd h (by simp)
        · rintro ⟨-, hfit, -⟩
          have h1 := hfit 1 (by simp)
          simp only [List.take_succ_cons, List.take_zero, shapeProd_cons,
            shapeProd_nil, Nat.mul_one] at h1
          omega
      · push_neg at hov
        have hlt : size * v.toNat < 2 ^ 64 := by
          by_contra hcon
          push_neg at hcon
          have := Nat.div_pos hcon (by norm_num)
          omega
        have hstep : tensorSizeLoop size (v :: rest) =
            tensorSizeLoop (size * v.toNat) rest := by
          rw [show tensorSizeLoop size (v :: rest) =
              (if v < 0 then .error (.negShape v)
               else if (size * v.toNat) / 2 ^ 64 ≠ 0 then .error .elemsOverflow
               else tensorSizeLoop (size * v.toNat % 2 ^ 64) rest) from rfl]
          rw [if_neg (not_lt.2 hv), if_neg (not_ne_iff.2 hov),
            Nat.mod_eq_of_lt hlt]
        rw [hstep, ih (size * v.toNat) r hlt]
        constructor
        · rintro ⟨hnn, hfit, hr⟩
          refine ⟨?_, ?_, ?_⟩
          · intro u hu
            rcases List.mem_cons.1 hu with rfl | hu
            · exact hv
            · exact hnn u hu
          · intro i hi
            cases i with
            | zero => simpa [shapeProd] using hsz
            | succ j =>
              have hj := hfit j (by simpa using hi)
              simpa [shapeProd_cons, Nat.mul_assoc] using hj
          · simpa [shapeProd_cons, Nat.mul_assoc] using hr
        · rintro ⟨hnn, hfit, hr⟩
          refine ⟨fun u hu => hnn u (List.mem_cons_of_mem v hu), ?_, ?_⟩
          · intro i hi
            have hj := hfit (i + 1) (by simpa using hi)
            simpa [shapeProd_cons, Nat.mul_assoc] using hj
          · simpa [shapeProd_cons, Nat.mul_assoc] using hr

theorem byteSizeFromShape_eq_ok_iff (dt : Nat) (shape : List Int) (r : Nat) :
    byteSizeFromShape dt shape = .ok r ↔
      (dtValid dt = true
       ∧ (∀ v ∈ shape, 0 ≤ v)
       ∧ (∀ i ≤ shape.length, shapeProd (shape.take i) < 2 ^ 64)
       ∧ shapeProd shape * (dtSize dt).toNat ≤ 2 ^ 63 - 1
       ∧ r = shapeProd shape * (dtSize dt).toNat) := by
  unfold byteSizeFromShape
  by_cases hdt : dtValid dt
  · rw [if_neg (by simp [hdt])]
    rcases hts : tensorSizeFromShape shape with e | tensorSize
    · constructor
      · intro h
        exact absurd h (by simp)
      · rintro ⟨-, hnn, hfit, -, -⟩
        have : tensorSizeFromShape shape = .ok (shapeProd shape) := by
          rw [tensorSizeFromShape,
            tensorSizeLoop_eq_ok_iff shape 1 (shapeProd shape) (by norm_num)]
          exact ⟨hnn, by simpa using hfit, by simp⟩
        rw [hts] at this
        exact absurd this (by simp)
    · have hts' := hts
      rw [tensorSizeFromShape,
        tensorSizeLoop_eq_ok_iff shape 1 tensorSize (by norm_num)] at hts'
      obtain ⟨hnn, hfit, hval⟩ := hts'
      simp only [Nat.one_mul] at hfit hval
      subst hval
      dsimp only
      by_cases hhi : (shapeProd shape * (dtSize dt).toNat) / 2 ^ 64 ≠ 0
      · have hge : 2 ^ 64 ≤ shapeProd shape * (dtSize dt).toNat := by
          by_contra hcon
          push_neg at hcon
          exact hhi (Nat.div_eq_of_lt hcon)
        rw [if_pos hhi]
        constructor
        · intro h
          exact absurd h (by simp)
        · rintro ⟨-, -, -, hb, -⟩
          omega
      · push_neg at hhi
        have hlt : shapeProd shape * (dtSize dt).toNat < 2 ^ 64 := by
          by_contra hcon
          push_neg at hcon
          have := Nat.div_pos hcon (by norm_num)
          omega
        rw [if_neg (by simpa using hhi), Nat.mod_eq_of_lt hlt]
        by_cases hbig : shapeProd shape * (dtSize dt).toNat > 2 ^ 63 - 1
        · rw [if_pos hbig]
          constructor
          · intro h
            exact absurd h (by simp)
          · rintro ⟨-, -, -, hb, -⟩
            omega
        · rw [if_neg hbig]
          push_neg at hbig
          constructor
          · intro h
            have : shapeProd shape * (dtSize dt).toNat = r := by
              simpa using h
            exact ⟨hdt, hnn, fun i hi => by simpa using hfit i hi, hbig,
              this.symm⟩
          · rintro ⟨-, -, -, -, hr⟩
            simp [hr]
  · rw [if_pos (by simpa using hdt)]
    constructor
    · intro h
      exact absurd h (by simp)
    · rintro ⟨hval, -⟩
      exact absurd hval hdt

theorem validateTensor_eq_ok_iff (t : HTensor) (cur : Int) :
    validateTensor t cur = .ok () ↔ (t.offBegin = cur ∧ tensorOk t) := by
  unfold validateTensor
  by_cases hbeg : t.offBegin ≠ cur
  · rw [if_pos hbeg]
    constructor
    · intro h
      exact absurd h (by simp)
    · rintro ⟨hb, -⟩
      exact absurd hb hbeg
  · push_neg at hbeg
    rw [if_neg (by simp [hbeg])]
    by_cases hend : t.offEnd < t.offBegin
    · rw [if_pos hend]
      constructor
      · intro h
        exact absurd h (by simp)
      · rintro ⟨-, -, -, -, -, hsz⟩
        have : (0 : Int) ≤ (shapeProd t.shape * (dtSize t.dType).toNat : Nat) :=
          Int.natCast_nonneg _
        omega
    · rw [if_neg hend]
      rcases hbs : byteSizeFromShape t.dType t.shape with e | byteSize
      · constructor
        · intro h
          exact absurd h (by simp)
        · rintro ⟨-, hok⟩
          obtain ⟨h1, h2, h3, h4, h5⟩ := hok
          have : byteSizeFromShape t.dType t.shape =
              .ok (shapeProd t.shape * (dtSize t.dType).toNat) := by
            rw [byteSizeFromShape_eq_ok_iff]
            exact ⟨h1, h2, h3, h4, rfl⟩
          rw [hbs] at this
          exact absurd this (by simp)
      · rw [byteSizeFromShape_eq_ok_iff] at hbs
        obtain ⟨h1, h2, h3, h4, h5⟩ := hbs
        subst h5
        dsimp only
        by_cases hmis : t.offEnd - t.offBegin ≠
            ((shapeProd t.shape * (dtSize t.dType).toNat : Nat) : Int)
        · rw [if_pos hmis]
          constructor
          · intro h
            exact absurd h (by simp)
          · rintro ⟨-, -, -, -, -, hsz⟩
            exact absurd hsz hmis
        · push_neg at hmis
          rw [if_neg (not_ne_iff.2 hmis)]
          exact ⟨fun _ => ⟨hbeg, h1, h2, h3, h4, hmis⟩, fun _ => rfl⟩

theorem validateWalk_eq_ok_iff (ts : List HTensor) (cur : Int) :
    validateWalk ts cur = .ok () ↔
      (offsetsChain cur ts ∧ ∀ t ∈ ts, tensorOk t) := by
  induction ts generalizing cur with
  | nil =>
    simp [validateWalk, offsetsChain]
  | cons t rest ih =>
    unfold validateWalk
    rcases hvt : validateTensor t cur with e | u
    · constructor
      · intro h
        exact absurd h (by simp)
      · rintro ⟨⟨hb, -⟩, hall⟩
        have : validateTensor t cur = .ok () :=
          (validateTensor_eq_ok_iff t cur).2 ⟨hb, hall t (by simp)⟩
        rw [hvt] at this
        exact absurd this (by simp)
    · obtain ⟨⟩ := u
      rw [validateTensor_eq_ok_iff] at hvt
      rw [ih t.offEnd, offsetsChain_cons]
      constructor
      · rintro ⟨hchain, hall⟩
        refine ⟨⟨hvt.1, ?_⟩, ?_⟩
        · exact hchain
        · intro u hu
          rcases List.mem_cons.1 hu with rfl | hu
          · exact hvt.2
          · exact hall u hu
      · rintro ⟨⟨-, hchain⟩, hall⟩
        refine ⟨?_, fun u hu => hall u (List.mem_cons_of_mem t hu)⟩
        exact hchain

theorem validateTensorNames_eq_ok_iff (tm : List (String × HTensor)) :
    validateTensorNames tm = .ok () ↔ ∀ p ∈ tm, p.1 = p.2.name := by
  induction tm with
  | nil => simp [validateTensorNames]
  | cons p rest ih =>
    obtain ⟨k, t⟩ := p
    unfold validateTensorNames
    by_cases hk : k ≠ t.name
    · rw [if_pos hk]
      constructor
      · intro h
        exact absurd h (by simp)
      · intro hall
        exact absurd (hall (k, t) (by simp)) hk
    · push_neg at hk
      rw [if_neg (by simp [hk]), ih]
      constructor
      · intro hall
        intro p hp
        rcases List.mem_cons.1 hp with rfl | hp
        · exact hk
        · exact hall p hp
      · intro hall p hp
        exact hall p (List.mem_cons_of_mem _ hp)

end V2

/-- C2 (amended): `Header.Validate` succeeds precisely on headers with a
non-negative buffer-start offset in which every map key equals the
descriptor's `Name`, the byte ranges sorted by `(begin, end)` form a
contiguous chain starting at 0, and every descriptor has non-negative shape
entries, a **valid dtype code**, an **overflow-free size computation**
(amendments the original claim omits), and a byte range whose width equals
`product(shape) * size(dtype)`.  In particular (scenario C) a header whose
only tensor declares `data_offsets [1, 5]` fails with an offset-mismatch
error naming expected begin 0 and actual begin 1. -/
theorem c2_header_validate :
    (∀ hd : V2.Header, hd.validate = .ok () ↔
      (0 ≤ hd.byteBufferOffset
       ∧ (∀ p ∈ hd.tensors, p.1 = p.2.name)
       ∧ V2.offsetsChain 0 (V2.sortByDataOffsets (hd.tensors.map Prod.snd))
       ∧ (∀ p ∈ hd.tensors, V2.tensorOk p.2)))
    ∧ V2.Header.validate ⟨[("test", ⟨"test", 9, [1], 1, 5⟩)], [], 0⟩ =
        .error (.invalidTensor "test" (.offsetMismatch 0 1)) := by
  constructor
  · intro hd
    unfold V2.Header.validate V2.validateTensors
    by_cases hoff : hd.byteBufferOffset < 0
    · rw [if_pos hoff]
      constructor
      · intro h
        exact absurd h (by simp)
      · rintro ⟨h0, -⟩
        omega
    · rw [if_neg hoff]
      rcases hn : V2.validateTensorNames hd.tensors with e | u
      · constructor
        · intro h
          exact absurd h (by simp)
        · rintro ⟨-, hnames, -⟩
          have hok := (V2.validateTensorNames_eq_ok_iff hd.tensors).2 hnames
          rw [hn] at hok
          exact absurd hok (by simp)
      · obtain ⟨⟩ := u
        rw [V2.validateWalk_eq_ok_iff]
        have hnames := (V2.validateTensorNames_eq_ok_iff hd.tensors).1 hn
        have hmem : ∀ t : V2.HTensor,
            t ∈ V2.sortByDataOffsets (hd.tensors.map Prod.snd) ↔
              t ∈ hd.tensors.map Prod.snd :=
          fun t => (List.perm_insertionSort V2.offLe _).mem_iff
        constructor
        · rintro ⟨hchain, hall⟩
          refine ⟨by omega, hnames, hchain, ?_⟩
          intro p hp
          exact hall p.2 ((hmem p.2).2 (List.mem_map_of_mem Prod.snd hp))
        · rintro ⟨-, -, hchain, hall⟩
          refine ⟨hchain, ?_⟩
          intro t ht
          obtain ⟨p, hp, rfl⟩ := List.mem_map.1 ((hmem t).1 ht)
          exact hall p hp
  · rfl

/-- C2 counterexample: this header satisfies every condition listed by the
original claim (key equals name, sorted ranges contiguous from 0, shape
non-negative, `end - begin = product(shape) * size(dtype)` — here
`0 - 0 = 0 * (-1)` since the invalid dtype code 0 has size `-1`), yet
`Header.Validate` rejects it: the claim's list of rejection conditions is
not exhaustive (dtype validity is also required). -/
theorem c2_counterexample :
    V2.Header.validate ⟨[("z", ⟨"z", 0, [0], 0, 0⟩)], [], 0⟩ =
      .error (.invalidTensor "z" (.invalidDType 0))
    ∧ (0 : Int) ≤ 0
    ∧ (∀ p ∈ [("z", (⟨"z", 0, [0], 0, 0⟩ : V2.HTensor))], p.1 = p.2.name)
    ∧ V2.offsetsChain 0
        (V2.sortByDataOffsets [(⟨"z", 0, [0], 0, 0⟩ : V2.HTensor)])
    ∧ (∀ v ∈ [(0 : Int)], 0 ≤ v)
    ∧ ((0 : Int) - 0 = (V2.shapeProd [0] : Int) * V2.dtSize 0) := by
  refine ⟨rfl, by norm_num, by decide, by decide, by decide, by decide⟩

namespace V1

/-- Element-count loop of `Metadata.validate` (part_007): `numElements`
starts at 1 and is multiplied by each shape entry via `checkedMul`. -/
def metadataNumElementsLoop (acc : Nat) : List Nat → Except MulErr Nat
  | [] => .ok acc
  | v :: rest =>
    match checkedMul acc v with
    | .error e => .error e
    | .ok acc2 => metadataNumElementsLoop acc2 rest

/-- Element count as computed by `Metadata.validate` (part_007). -/
def metadataNumElements (shape : List Nat) : Except MulErr Nat :=
  metadataNumElementsLoop 1 shape

theorem numElementsFromShape_zero_acc (rest : List Nat) :
    rest.foldl (fun acc v => acc * v % 2 ^ 64) 0 = 0 := by
  induction rest with
  | nil => rfl
  | cons v vs ih => simpa using ih

theorem numElementsFromShape_eq_zero_of_mem (s : List Nat) (h0 : 0 ∈ s) :
    numElementsFromShape s = 0 := by
  obtain ⟨n, rest, rfl⟩ : ∃ n rest, s = n :: rest := by
    cases s with
    | nil => simp at h0
    | cons n rest => exact ⟨n, rest, rfl⟩
  show rest.foldl (fun acc v => acc * v % 2 ^ 64) n = 0
  rcases List.mem_cons.1 h0 with rfl | hrest
  · exact numElementsFromShape_zero_acc rest
  · clear h0
    induction rest generalizing n with
    | nil => simp at hrest
    | cons v vs ih =>
      rcases List.mem_cons.1 hrest with rfl | hvs
      · simpa using numElementsFromShape_zero_acc vs
      · exact ih (n * v % 2 ^ 64) hvs

end V1

/-- C7 (amended): header validation — both the new `tensorSizeFromShape` /
`byteSizeFromShape` and the old `Metadata.validate` element count — treats
the empty shape as a scalar (one element, byte size `size(dtype)`) and any
shape containing an explicit 0 as zero elements; but tensor-view
construction (`numElementsFromShape` / `NewTensorView` of the map-based
API) computes **zero** elements for the empty shape and therefore only
accepts an empty-shape view whose data is empty, contrary to the original
claim that all components agree on "empty shape = one element". -/
theorem c7_shape_semantics :
    V2.tensorSizeFromShape [] = .ok 1
    ∧ (∀ dt : Nat, V2.dtValid dt = true →
        V2.byteSizeFromShape dt [] = .ok (V2.dtSize dt).toNat)
    ∧ V1.metadataNumElements [] = .ok 1
    ∧ (∀ s : List Int, 0 ∈ s → (∀ v ∈ s, 0 ≤ v) →
        (∀ i ≤ s.length, V2.shapeProd (s.take i) < 2 ^ 64) →
        V2.tensorSizeFromShape s = .ok 0)
    ∧ V1.numElementsFromShape [] = 0
    ∧ (∀ s : List Nat, 0 ∈ s → V1.numElementsFromShape s = 0)
    ∧ (∀ (dt : V1.DType) (data : List Nat), data.length < 2 ^ 64 →
        ((V1.NewTensorView dt [] data).isOk = true ↔ data = [])) := by
  refine ⟨rfl, ?_, rfl, ?_, rfl, ?_, ?_⟩
  · intro dt hdt
    have hb : 1 ≤ dt ∧ dt ≤ 13 := by
      unfold V2.dtValid at hdt
      simp at hdt
      omega
    obtain ⟨h1, h2⟩ := hb
    interval_cases dt <;> rfl
  · intro s h0 hnn hfit
    have hz : V2.shapeProd s = 0 := by
      unfold V2.shapeProd
      refine List.prod_eq_zero ?_
      rw [List.mem_map]
      exact ⟨0, h0, rfl⟩
    have : V2.tensorSizeFromShape s = .ok (V2.shapeProd s) := by
      rw [V2.tensorSizeFromShape,
        V2.tensorSizeLoop_eq_ok_iff s 1 (V2.shapeProd s) (by norm_num)]
      exact ⟨hnn, by simpa using hfit, by simp⟩
    rw [this, hz]
  · exact fun s h0 => V1.numElementsFromShape_eq_zero_of_mem s h0
  · intro dt data hlen
    unfold V1.NewTensorView
    have hne : V1.numElementsFromShape [] * dt.size % 2 ^ 64 = 0 := by
      simp [V1.numElementsFromShape]
    rw [hne]
    by_cases hd : data.length % 2 ^ 64 ≠ 0
    · rw [if_pos hd]
      rw [Nat.mod_eq_of_lt hlen] at hd
      simp only [Except.isOk, Except.toBool]
      constructor
      · intro h
        exact absurd h (by simp)
      · intro h
        rw [h] at hd
        simp at hd
    · push_neg at hd
      rw [if_neg (not_ne_iff.2 hd)]
      rw [Nat.mod_eq_of_lt hlen] at hd
      simp only [Except.isOk, Except.toBool]
      constructor
      · intro _
        exact List.length_eq_zero.1 hd
      · intro _
        trivial

/-- C7 witness: concrete instances of the hypotheses of
`c7_shape_semantics`: byte size of an empty-shape U8 tensor in validation,
a zero-entry shape, and an empty-shape tensor view with empty data. -/
theorem c7_shape_semantics_witness :
    V2.byteSizeFromShape 2 [] = .ok 1
    ∧ V2.tensorSizeFromShape [0] = .ok 0
    ∧ V1.numElementsFromShape [3, 0, 5] = 0
    ∧ (V1.NewTensorView .U8 [] []).isOk = true :=
  ⟨(c7_shape_semantics.2.1 2 (by decide)).trans (by rfl),
   c7_shape_semantics.2.2.2.1 [0] (by decide) (by decide) (by decide),
   c7_shape_semantics.2.2.2.2.2.1 [3, 0, 5] (by decide),
   (c7_shape_semantics.2.2.2.2.2.2 V1.DType.U8 [] (by decide)).2 rfl⟩

/-- C7 counterexample: the original claim states the empty shape counts as
one element (byte size `size(dtype)`) also during tensor-view construction,
but `numElementsFromShape` yields 0 for the empty shape and `NewTensorView`
rejects a 1-byte U8 scalar view, while header validation computes one
element for the same shape. -/
theorem c7_counterexample :
    V1.numElementsFromShape [] = 0
    ∧ (V1.NewTensorView .U8 [] [42]).isOk = false
    ∧ V2.tensorSizeFromShape [] = .ok 1 :=
  ⟨rfl, rfl, rfl⟩

/-- `binary.LittleEndian.PutUint64`: the 8 little-endian bytes of `n`. -/
def le8 (n : Nat) : List Nat :=
  [n % 256, n / 256 % 256, n / 256 ^ 2 % 256, n / 256 ^ 3 % 256,
   n / 256 ^ 4 % 256, n / 256 ^ 5 % 256, n / 256 ^ 6 % 256, n / 256 ^ 7 % 256]

namespace V1

/-- Header padding of `prepare` (safetensors.go:217-225): append ASCII
space bytes until the JSON byte length is a multiple of 8; the written `n`
is the padded length. -/
def padHeaderBytes (metadataBuf : List Nat) : List Nat :=
  metadataBuf ++ List.replicate ((8 - metadataBuf.length % 8) % 8) 32

end V1

namespace V2

/-- `headerPadding` (serialize.go): eight ASCII space bytes. -/
def headerPaddingArr : List Nat := List.replicate 8 32

/-- `writeHeader` (serialize.go:107-132): the 8-byte little-endian size
`jsonLen + toAlign`, the JSON text, then `headerPadding[:toAlign]`. -/
def writeHeaderBytes (jsonHeader : List Nat) : List Nat :=
  le8 (jsonHeader.length + (8 - jsonHeader.length % 8) % 8) ++ jsonHeader ++
    headerPaddingArr.take ((8 - jsonHeader.length % 8) % 8)

end V2

/-- C8: in both generations the encoded header length (JSON text plus
padding) is always a multiple of 8, and every appended padding byte is the
ASCII space 0x20. -/
theorem c8_header_alignment :
    (∀ buf : List Nat,
      (V1.padHeaderBytes buf).length % 8 = 0
      ∧ (V1.padHeaderBytes buf).drop buf.length =
          List.replicate ((8 - buf.length % 8) % 8) 32
      ∧ ∀ b ∈ (V1.padHeaderBytes buf).drop buf.length, b = 32)
    ∧ (∀ json : List Nat,
      (json.length + (8 - json.length % 8) % 8) % 8 = 0
      ∧ V2.writeHeaderBytes json =
          le8 (json.length + (8 - json.length % 8) % 8) ++ json ++
            List.replicate ((8 - json.length % 8) % 8) 32
      ∧ ∀ b ∈ V2.headerPaddingArr.take ((8 - json.length % 8) % 8), b = 32) := by
  constructor
  · intro buf
    refine ⟨?_, ?_, ?_⟩
    · have : (V1.padHeaderBytes buf).length =
          buf.length + (8 - buf.length % 8) % 8 := by
        simp [V1.padHeaderBytes]
      rw [this]
      omega
    · unfold V1.padHeaderBytes
      rw [List.drop_left]
    · intro b hb
      unfold V1.padHeaderBytes at hb
      rw [List.drop_left] at hb
      exact List.eq_of_mem_replicate hb
  · intro json
    refine ⟨by omega, ?_, ?_⟩
    · unfold V2.writeHeaderBytes V2.headerPaddingArr
      rw [List.take_replicate]
      congr 1
      · congr 2
        omega
    · intro b hb
      unfold V2.headerPaddingArr at hb
      rw [List.take_replicate] at hb
      exact List.eq_of_mem_replicate hb

namespace V2

/-- `writeBoolData` (tensor.go:214-238): the loop writes exactly one byte
per element — the slice `one = [1]` for true, `zero = [0]` for false. -/
def writeBoolData : List Bool → List Nat
  | [] => []
  | x :: rest => (if x then 1 else 0) :: writeBoolData rest

/-- `readBoolData` (read.go:209-221): reads `size` single bytes, turning a
byte `b` into `b != 0`; a short stream is a read error. -/
def readBoolData : List Nat → Nat → Except Unit (List Bool)
  | _, 0 => .ok []
  | [], _ + 1 => .error ()
  | b :: rest, n + 1 =>
    match readBoolData rest n with
    | .error e => .error e
    | .ok out => .ok ((b != 0) :: out)

end V2

theorem readBoolData_of_le (bytes : List Nat) (size : Nat)
    (h : size ≤ bytes.length) :
    V2.readBoolData bytes size = .ok ((bytes.take size).map fun b => b != 0) := by
  induction size generalizing bytes with
  | zero => simp [V2.readBoolData]
  | succ n ih =>
    cases bytes with
    | nil => simp at h
    | cons b rest =>
      have hr := ih rest (by simpa using h)
      simp [V2.readBoolData, hr]

theorem writeBoolData_eq_map (v : List Bool) :
    V2.writeBoolData v = v.map fun x => if x then 1 else 0 := by
  induction v with
  | nil => rfl
  | cons x rest ih => simp [V2.writeBoolData, ih]

theorem boolDecodeEncodeId (v : List Bool) :
    List.map ((fun b => b != 0) ∘ fun x => if x then 1 else 0) v = v := by
  induction v with
  | nil => rfl
  | cons x rest ih => cases x <;> simp_all [Function.comp]

/-- C9: boolean encode emits exactly one byte per element — 1 for true, 0
for false and nothing else — and boolean decode maps the byte 0 to false
and every nonzero byte to true for any input of the expected element count;
consequently decode is a left inverse of encode. -/
theorem c9_bool_codec :
    (∀ v : List Bool, V2.writeBoolData v = v.map fun x => if x then 1 else 0)
    ∧ (∀ v : List Bool, ∀ b ∈ V2.writeBoolData v, b = 0 ∨ b = 1)
    ∧ (∀ (bytes : List Nat) (size : Nat), size ≤ bytes.length →
        V2.readBoolData bytes size =
          .ok ((bytes.take size).map fun b => b != 0))
    ∧ (∀ v : List Bool, V2.readBoolData (V2.writeBoolData v) v.length = .ok v) := by
  refine ⟨writeBoolData_eq_map, ?_, readBoolData_of_le, ?_⟩
  · intro v b hb
    rw [writeBoolData_eq_map] at hb
    obtain ⟨x, -, rfl⟩ := List.mem_map.1 hb
    cases x <;> simp
  · intro v
    have hlen : (V2.writeBoolData v).length = v.length := by
      rw [writeBoolData_eq_map, List.length_map]
    rw [readBoolData_of_le _ _ (by omega), ← hlen, List.take_length,
      writeBoolData_eq_map, List.map_map]
    congr 1
    exact boolDecodeEncodeId v

/-- C9 witness: decode of three concrete bytes of the expected count, plus
a concrete encode/decode round trip. -/
theorem c9_bool_codec_witness :
    V2.readBoolData [0, 2, 7] 3 = .ok [false, true, true]
    ∧ V2.writeBoolData [true, false] = [1, 0]
    ∧ V2.readBoolData (V2.writeBoolData [true, false]) 2 = .ok [true, false] :=
  ⟨(c9_bool_codec.2.2.1 [0, 2, 7] 3 (by decide)).trans (by rfl),
   (c9_bool_codec.1 [true, false]).trans (by rfl),
   c9_bool_codec.2.2.2 [true, false]⟩

namespace V1

/-- `TensorInfo` (tensorinfo.go): dtype, shape (`[]uint64`) and the two
`data_offsets` entries. -/
structure TensorInfo where
  dType : DType
  shape : List Nat
  off0 : Nat
  off1 : Nat
deriving DecidableEq, Repr

/-- Reflexive closure of the `sort.Slice` comparator in `prepare`
(safetensors.go:185-189): descending dtype value, then ascending name. -/
def prepLe (a b : String × TensorView) : Prop :=
  b.2.dType.code < a.2.dType.code
  ∨ (a.2.dType.code = b.2.dType.code ∧ a.1 ≤ b.1)

instance : DecidableRel prepLe := fun a b => by
  unfold prepLe
  infer_instance

instance : IsTotal (String × TensorView) prepLe := by
  constructor
  intro a b
  rcases Nat.lt_trichotomy a.2.dType.code b.2.dType.code with h | h | h
  · exact Or.inr (Or.inl h)
  · rcases le_total a.1 b.1 with hn | hn
    · exact Or.inl (Or.inr ⟨h, hn⟩)
    · exact Or.inr (Or.inr ⟨h.symm, hn⟩)
  · exact Or.inl (Or.inl h)

instance : IsTrans (String × TensorView) prepLe := by
  constructor
  intro a b c hab hbc
  rcases hab with h1 | ⟨e1, n1⟩
  · rcases hbc with h2 | ⟨e2, n2⟩
    · exact Or.inl (Nat.lt_trans h2 h1)
    · exact Or.inl (e2 ▸ h1)
  · rcases hbc with h2 | ⟨e2, n2⟩
    · exact Or.inl (e1 ▸ h2)
    · exact Or.inr ⟨e1.trans e2, le_trans n1 n2⟩

/-- The sorting step of `prepare`: "sorting by descending dtype alignment,
then by name". -/
def prepareSort (l : List (String × TensorView)) : List (String × TensorView) :=
  List.insertionSort prepLe l

/-- The offset-assignment loop of `prepare` (safetensors.go:195-209):
`DataOffsets = [offset, offset+n]` with `n = DataLen()`, accumulating
`offset += n` in `uint64` arithmetic. -/
def assignOffsets : List (String × TensorView) → Nat → List (String × TensorInfo)
  | [], _ => []
  | (name, v) :: rest, offset =>
    (name, ⟨v.dType, v.shape, offset,
       (offset + v.data.length % 2 ^ 64) % 2 ^ 64⟩)
      :: assignOffsets rest ((offset + v.data.length % 2 ^ 64) % 2 ^ 64)

/-- Spec-side: contiguity of assigned V1 byte ranges from a cursor. -/
def offChainV1 : Nat → List (String × TensorInfo) → Prop
  | _, [] => True
  | cur, (_, i) :: rest => i.off0 = cur ∧ offChainV1 i.off1 rest

theorem assignOffsets_chain (l : List (String × TensorView)) (c : Nat) :
    offChainV1 c (assignOffsets l c) := by
  induction l generalizing c with
  | nil => trivial
  | cons p rest ih =>
    obtain ⟨name, v⟩ := p
    exact ⟨rfl, ih _⟩

theorem assignOffsets_fields (l : List (String × TensorView)) (c : Nat) :
    ∀ pr ∈ l.zip (assignOffsets l c),
      pr.2.1 = pr.1.1 ∧ pr.2.2.dType = pr.1.2.dType
      ∧ pr.2.2.shape = pr.1.2.shape
      ∧ pr.2.2.off1 = (pr.2.2.off0 + pr.1.2.data.length % 2 ^ 64) % 2 ^ 64 := by
  induction l generalizing c with
  | nil => intro pr hpr; simp at hpr
  | cons p rest ih =>
    obtain ⟨name, v⟩ := p
    intro pr hpr
    rcases List.mem_cons.1 hpr with rfl | hpr
    · exact ⟨rfl, rfl, rfl, rfl⟩
    · exact ih _ pr hpr

end V1

namespace V2

/-- A `SerializableTensor` (serialize.go): name, dtype code, shape, and the
payload bytes its `WriteTo` writes. -/
structure STensor where
  name : String
  dType : Nat
  shape : List Int
  data : List Nat
deriving DecidableEq, Repr

/-- Go two's-complement 64-bit `int` wrap-around. -/
def wrap64 (z : Int) : Int := (z + 2 ^ 63) % 2 ^ 64 - 2 ^ 63

/-- `shapeToByteSize` (serialize.go:66-72): `int` product of the shape
entries times the dtype size, in Go's wrapping `int` arithmetic. -/
def shapeToByteSize (shape : List Int) (dt : Nat) : Int :=
  wrap64 ((shape.foldl (fun size v => wrap64 (size * v)) 1) * dtSize dt)

/-- `newHeaderTensor` (serialize.go:51-64). -/
def newHeaderTensor (t : STensor) (beginOffset : Int) : HTensor × Int :=
  (⟨t.name, t.dType, t.shape, beginOffset,
     wrap64 (beginOffset + shapeToByteSize t.shape t.dType)⟩,
   wrap64 (beginOffset + shapeToByteSize t.shape t.dType))

/-- Offset-accumulating loop of `makeHeaderTensorSlice` (serialize.go:42-49). -/
def makeHeaderTensorLoop : List STensor → Int → List HTensor
  | [], _ => []
  | t :: rest, offset =>
    (newHeaderTensor t offset).1
      :: makeHeaderTensorLoop rest (newHeaderTensor t offset).2

/-- `makeHeaderTensorSlice` (serialize.go:42-49): assigns contiguous byte
ranges in the given slice order starting at 0; it performs no sorting. -/
def makeHeaderTensorSlice (ts : List STensor) : List HTensor :=
  makeHeaderTensorLoop ts 0

theorem makeHeaderTensorLoop_chain (ts : List STensor) (c : Int) :
    offsetsChain c (makeHeaderTensorLoop ts c) := by
  induction ts generalizing c with
  | nil => trivial
  | cons t rest ih => exact ⟨rfl, ih _⟩

theorem makeHeaderTensorLoop_fields (ts : List STensor) (c : Int) :
    ∀ pr ∈ ts.zip (makeHeaderTensorLoop ts c),
      pr.2.name = pr.1.name ∧ pr.2.dType = pr.1.dType
      ∧ pr.2.shape = pr.1.shape
      ∧ pr.2.offEnd =
          wrap64 (pr.2.offBegin + shapeToByteSize pr.1.shape pr.1.dType) := by
  induction ts generalizing c with
  | nil => intro pr hpr; simp at hpr
  | cons t rest ih =>
    intro pr hpr
    rcases List.mem_cons.1 hpr with rfl | hpr
    · exact ⟨rfl, rfl, rfl, rfl⟩
    · exact ih _ pr hpr

theorem makeHeaderTensorLoop_length (ts : List STensor) (c : Int) :
    (makeHeaderTensorLoop ts c).length = ts.length := by
  induction ts generalizing c with
  | nil => rfl
  | cons t rest ih => simp [makeHeaderTensorLoop, ih]

end V2

/-- C5 (amended): the map-based `prepare` sorts the tensors by descending
DataType value then ascending name and assigns contiguous byte ranges by
accumulating offsets in that sorted order starting at 0; the slice-based
stream serialization (`makeHeaderTensorSlice`) assigns contiguous byte
ranges starting at 0 in the **caller's slice order**, with no sorting step
(so the tensor whose dtype sorts first need not occupy the first range). -/
theorem c5_serialize_layout :
    (∀ l : List (String × V1.TensorView),
      (V1.prepareSort l).Sorted V1.prepLe
      ∧ List.Perm (V1.prepareSort l) l
      ∧ (∀ c : Nat, V1.offChainV1 c (V1.assignOffsets (V1.prepareSort l) c))
      ∧ (∀ pr ∈ (V1.prepareSort l).zip (V1.assignOffsets (V1.prepareSort l) 0),
          pr.2.1 = pr.1.1 ∧ pr.2.2.dType = pr.1.2.dType
          ∧ pr.2.2.shape = pr.1.2.shape
          ∧ pr.2.2.off1 = (pr.2.2.off0 + pr.1.2.data.length % 2 ^ 64) % 2 ^ 64))
    ∧ (∀ ts : List V2.STensor,
      V2.offsetsChain 0 (V2.makeHeaderTensorSlice ts)
      ∧ (∀ pr ∈ ts.zip (V2.makeHeaderTensorSlice ts),
          pr.2.name = pr.1.name ∧ pr.2.dType = pr.1.dType
          ∧ pr.2.shape = pr.1.shape
          ∧ pr.2.offEnd =
              V2.wrap64 (pr.2.offBegin +
                V2.shapeToByteSize pr.1.shape pr.1.dType))
      ∧ (V2.makeHeaderTensorSlice ts).length = ts.length) := by
  constructor
  · intro l
    exact ⟨List.sorted_insertionSort V1.prepLe l,
      List.perm_insertionSort V1.prepLe l,
      fun c => V1.assignOffsets_chain _ c,
      V1.assignOffsets_fields _ 0⟩
  · intro ts
    exact ⟨V2.makeHeaderTensorLoop_chain ts 0,
      V2.makeHeaderTensorLoop_fields ts 0,
      V2.makeHeaderTensorLoop_length ts 0⟩

/-- C5 witness: the layout properties at a concrete two-tensor input. -/
theorem c5_serialize_layout_witness :
    V1.offChainV1 0
      (V1.assignOffsets
        (V1.prepareSort [("a", ⟨.U8, [2], [5, 6]⟩), ("b", ⟨.U64, [1], [0, 0, 0, 0, 0, 0, 0, 1]⟩)]) 0)
    ∧ V2.offsetsChain 0
        (V2.makeHeaderTensorSlice [⟨"a", 1, [1], [0]⟩, ⟨"b", 11, [1], []⟩]) :=
  ⟨(c5_serialize_layout.1
      [("a", ⟨.U8, [2], [5, 6]⟩), ("b", ⟨.U64, [1], [0, 0, 0, 0, 0, 0, 0, 1]⟩)]).2.2.1 0,
   (c5_serialize_layout.2 [⟨"a", 1, [1], [0]⟩, ⟨"b", 11, [1], []⟩]).1⟩

/-- C5 counterexample: the stream serializer `makeHeaderTensorSlice` keeps
the caller's slice order: with a BOOL tensor (dtype code 1) listed before a
U64 tensor (code 11), the BOOL tensor occupies `[0, 1)` and the U64 tensor
`[1, 9)` — the tensor whose dtype sorts first (descending) does **not**
occupy the first byte range, contradicting the claim that serialization
always sorts by DataType descending then name. -/
theorem c5_counterexample :
    V2.makeHeaderTensorSlice
        [⟨"a", 1, [1], [0]⟩, ⟨"b", 11, [1], [0, 0, 0, 0, 0, 0, 0, 1]⟩]
      = [⟨"a", 1, [1], 0, 1⟩, ⟨"b", 11, [1], 1, 9⟩]
    ∧ (1 : Nat) < 11 :=
  ⟨rfl, by norm_num⟩

theorem c2_header_validate_witness :
    V2.Header.validate ⟨[("a", ⟨"a", 2, [2], 0, 2⟩)], [], 0⟩ = .ok () :=
  (c2_header_validate.1 ⟨[("a", ⟨"a", 2, [2], 0, 2⟩)], [], 0⟩).2
    ⟨by norm_num, by decide, by decide, by decide⟩

theorem c8_header_alignment_witness :
    (V1.padHeaderBytes [1, 2, 3]).length % 8 = 0
    ∧ ∀ b ∈ (V1.padHeaderBytes [1, 2, 3]).drop 3, b = 32 :=
  ⟨(c8_header_alignment.1 [1, 2, 3]).1, (c8_header_alignment.1 [1, 2, 3]).2.2⟩

namespace V2

inductive SErr
  | duplicateName (nm : String)
  | invalidHeader (e : VErr)
  | writeMismatch (expected actual : Int)
deriving DecidableEq, Repr

/-- `makeHeaderTensorMap` (serialize.go:96-105): builds the name-keyed
tensor map, failing with a duplicate-tensor-name error when a name is
already present. -/
def makeHeaderTensorMapLoop (acc : List (String × HTensor)) :
    List HTensor → Except SErr (List (String × HTensor))
  | [] => .ok acc
  | t :: rest =>
    if t.name ∈ acc.map Prod.fst then .error (.duplicateName t.name)
    else makeHeaderTensorMapLoop (acc ++ [(t.name, t)]) rest

def makeHeaderTensorMap (ts : List HTensor) :
    Except SErr (List (String × HTensor)) :=
  makeHeaderTensorMapLoop [] ts

/-- `makeHeader` and `makeValidHeader` (serialize.go:74-94): build the
header (buffer-start offset zero) and validate it. -/
def makeValidHeader (ts : List HTensor) (metadata : List (String × String)) :
    Except SErr Header :=
  match makeHeaderTensorMap ts with
  | .error e => .error e
  | .ok tm =>
    match (Header.mk tm metadata 0).validate with
    | .error e => .error (.invalidHeader e)
    | .ok _ => .ok (Header.mk tm metadata 0)

/-- One event per `w.Write`-producing stage of the stream serializer: the
whole header write (size prefix, JSON text and padding) and each tensor's
data write. -/
inductive WriteEvent
  | headerEvent (head : Header)
  | tensorData (bytes : List Nat)
deriving DecidableEq, Repr

/-- `writeTensors`/`writeTensor` (serialize.go:144-165): each tensor's
bytes are written, then the written count is compared with `end - begin`. -/
def writeTensorsEvents : List STensor → List HTensor → List WriteEvent × Option SErr
  | [], _ => ([], none)
  | _ :: _, [] => ([], none)
  | t :: rest, ht :: hrest =>
    if (t.data.length : Int) ≠ ht.offEnd - ht.offBegin then
      ([.tensorData t.data],
       some (.writeMismatch (ht.offEnd - ht.offBegin) t.data.length))
    else
      ((.tensorData t.data) :: (writeTensorsEvents rest hrest).1,
       (writeTensorsEvents rest hrest).2)

/-- `Serialize` (serialize.go:27-40): build the offset slice, build and
validate the header, then write the header and the tensor data.  The first
component of the result is the sequence of write events that reached the
output writer; the second is the error, if any. -/
def SerializeStream (ts : List STensor) (metadata : List (String × String)) :
    List WriteEvent × Option SErr :=
  match makeValidHeader (makeHeaderTensorSlice ts) metadata with
  | .error e => ([], some e)
  | .ok head =>
    ((WriteEvent.headerEvent head) :: (writeTensorsEvents ts (makeHeaderTensorSlice ts)).1,
     (writeTensorsEvents ts (makeHeaderTensorSlice ts)).2)

theorem makeHeaderTensorLoop_names (ts : List STensor) (c : Int) :
    (makeHeaderTensorLoop ts c).map HTensor.name = ts.map STensor.name := by
  induction ts generalizing c with
  | nil => rfl
  | cons t rest ih => simp [makeHeaderTensorLoop, newHeaderTensor, ih]

theorem makeHeaderTensorMapLoop_error (ts : List HTensor) :
    ∀ acc : List (String × HTensor), (acc.map Prod.fst).Nodup →
    ¬ (acc.map Prod.fst ++ ts.map HTensor.name).Nodup →
    ∃ nm, makeHeaderTensorMapLoop acc ts = .error (.duplicateName nm) := by
  induction ts with
  | nil =>
    intro acc hacc hdup
    exact absurd (by simpa using hacc) hdup
  | cons t rest ih =>
    intro acc hacc hdup
    unfold makeHeaderTensorMapLoop
    by_cases hmem : t.name ∈ acc.map Prod.fst
    · rw [if_pos hmem]
      exact ⟨t.name, rfl⟩
    · rw [if_neg hmem]
      refine ih (acc ++ [(t.name, t)]) ?_ ?_
      · simp only [List.map_append, List.map_cons, List.map_nil,
          List.nodup_append]
        refine ⟨hacc, by simp, ?_⟩
        intro a ha hb
        simp only [List.mem_singleton] at hb
        subst hb
        exact hmem ha
      · intro hcon
        apply hdup
        rw [List.map_append, List.append_assoc] at hcon
        simpa using hcon

end V2

/-- C10: stream serialization of a slice containing two tensors with the
same name fails with a duplicate-tensor-name error, and the error is
returned before any write event (header or tensor data) reaches the output
writer. -/
theorem c10_duplicate_name (ts : List V2.STensor)
    (metadata : List (String × String))
    (hdup : ¬ (ts.map V2.STensor.name).Nodup) :
    ∃ nm, V2.SerializeStream ts metadata = ([], some (.duplicateName nm)) := by
  obtain ⟨nm, herr⟩ :=
    V2.makeHeaderTensorMapLoop_error (V2.makeHeaderTensorSlice ts) []
      (by simp)
      (by
        simpa [V2.makeHeaderTensorSlice, V2.makeHeaderTensorLoop_names]
          using hdup)
  refine ⟨nm, ?_⟩
  unfold V2.SerializeStream V2.makeValidHeader V2.makeHeaderTensorMap
  rw [herr]

/-- C10 witness: a concrete slice with a repeated name `"x"` produces the
duplicate-name error with no write events. -/
theorem c10_duplicate_name_witness :
    ¬ ([⟨"x", 2, [1], [1]⟩, ⟨"x", 2, [1], [2]⟩].map V2.STensor.name).Nodup
    ∧ ∃ nm, V2.SerializeStream [⟨"x", 2, [1], [1]⟩, ⟨"x", 2, [1], [2]⟩] [] =
        ([], some (.duplicateName nm)) :=
  ⟨by decide, c10_duplicate_name _ _ (by decide)⟩

namespace V2

/-- Reading `len` bytes at absolute position `s` of the byte buffer. -/
def sliceBytes (body : List Nat) (s len : Nat) : List Nat :=
  (body.drop s).take len

structure RawTensor where
  name : String
  dType : Nat
  shape : List Int
  data : List Nat
deriving DecidableEq, Repr

inductive TRErr
  | truncated
  | invalidDType (dt : Nat)
  | seekOverflow
deriving DecidableEq, Repr

/-- `readRawTensor` (read.go:139-161): `size := end - begin` bytes are read
from the current stream position (zero size produces nil data with no
read). -/
def readRawTensorAt (body : List Nat) (pos : Nat) (t : HTensor) :
    Except TRErr (RawTensor × Nat) :=
  if (t.offEnd - t.offBegin).toNat = 0 then
    .ok (⟨t.name, t.dType, t.shape, []⟩, pos)
  else if pos + (t.offEnd - t.offBegin).toNat ≤ body.length then
    .ok (⟨t.name, t.dType, t.shape,
      sliceBytes body pos (t.offEnd - t.offBegin).toNat⟩,
     pos + (t.offEnd - t.offBegin).toNat)
  else .error .truncated

/-- Interpretation of `w`-byte little-endian groups:
`b0 | b1<<8 | …` as in `read16bitData` … `read64bitData` (read.go). -/
def leVal : List Nat → Nat
  | [] => 0
  | b :: rest => b + 256 * leVal rest

def leWords (w : Nat) : List Nat → Nat → List Nat
  | _, 0 => []
  | bs, n + 1 => leVal (bs.take w) :: leWords w (bs.drop w) n

/-- Two's-complement reinterpretation of a `w`-bit word (the `int8`/
`int16`/`int32`/`int64` conversions in the readers). -/
def toSigned (w : Nat) (n : Nat) : Int :=
  if n < 2 ^ (w - 1) then (n : Int) else (n : Int) - 2 ^ w

/-- Typed in-memory data, one variant per dtype, as produced by
`readTypedTensorData` (read.go).  The 16-bit float variants are opaque raw
words; `F32`/`F64` are represented by their IEEE-754 bit patterns (the Go
code stores `Float32frombits`/`Float64frombits` of exactly these words, a
bijection on bit patterns). -/
inductive TypedData
  | bools (xs : List Bool)
  | u8 (xs : List Nat)
  | i8 (xs : List Int)
  | u16 (xs : List Nat)
  | i16 (xs : List Int)
  | f16 (xs : List Nat)
  | bf16 (xs : List Nat)
  | u32 (xs : List Nat)
  | i32 (xs : List Int)
  | f32 (xs : List Nat)
  | u64 (xs : List Nat)
  | i64 (xs : List Int)
  | f64 (xs : List Nat)
deriving DecidableEq, Repr

/-- The per-dtype branch of `readTypedTensorData` (read.go:178-205),
applied to the already-grouped little-endian words. -/
def mkTyped (dt : Nat) (words : List Nat) : TypedData :=
  match dt with
  | 1 => .bools (words.map fun b => b != 0)
  | 2 => .u8 words
  | 3 => .i8 (words.map (toSigned 8))
  | 4 => .u16 words
  | 5 => .i16 (words.map (toSigned 16))
  | 6 => .f16 words
  | 7 => .bf16 words
  | 8 => .u32 words
  | 9 => .i32 (words.map (toSigned 32))
  | 10 => .f32 words
  | 11 => .u64 words
  | 12 => .i64 (words.map (toSigned 64))
  | _ => .f64 words

/-- `readTypedTensorData` (read.go:172-207) as a pure function of the bytes
available to this tensor (the `LimitedReader` region): an invalid dtype is
an error, a stream shorter than `count` elements is a truncation error. -/
def decodeTyped (dt : Nat) (bytes : List Nat) (count : Nat) :
    Except TRErr TypedData :=
  if dtValid dt then
    if count * (dtSize dt).toNat ≤ bytes.length then
      .ok (mkTyped dt (leWords (dtSize dt).toNat bytes count))
    else .error .truncated
  else .error (.invalidDType dt)

structure Tensor where
  name : String
  dType : Nat
  shape : List Int
  data : TypedData
deriving DecidableEq, Repr

/-- `readTensor` (read.go:122-137) at a given stream position: the typed
element count is `byteSize / dtype.Size()`, and the decoder consumes the
`byteSize`-byte region (for validated headers the byte size is an exact
multiple of the element width). -/
def readTensorAt (body : List Nat) (pos : Nat) (t : HTensor) :
    Except TRErr (Tensor × Nat) :=
  if pos + (t.offEnd - t.offBegin).toNat ≤ body.length then
    match decodeTyped t.dType
        (sliceBytes body pos (t.offEnd - t.offBegin).toNat)
        ((t.offEnd - t.offBegin).toNat / (dtSize t.dType).toNat) with
    | .error e => .error e
    | .ok td => .ok (⟨t.name, t.dType, t.shape, td⟩,
        pos + (t.offEnd - t.offBegin).toNat)
  else .error .truncated

/-- The value of the eager/lazy typed read of one tensor. -/
def typedOf (body : List Nat) (t : HTensor) : Tensor :=
  ⟨t.name, t.dType, t.shape,
    mkTyped t.dType
      (leWords (dtSize t.dType).toNat
        (sliceBytes body t.offBegin.toNat (t.offEnd - t.offBegin).toNat)
        ((t.offEnd - t.offBegin).toNat / (dtSize t.dType).toNat))⟩

/-- The sequential loop of `readAllRawTensors` (read.go:108-120). -/
def readAllRawTensorsLoop (body : List Nat) :
    List HTensor → Nat → Except (String × TRErr) (List RawTensor)
  | [], _ => .ok []
  | t :: rest, pos =>
    match readRawTensorAt body pos t with
    | .error e => .error (t.name, e)
    | .ok (rt, pos2) =>
      match readAllRawTensorsLoop body rest pos2 with
      | .error e => .error e
      | .ok out => .ok (rt :: out)

/-- `readAllRawTensors` (read.go:108-120): sort by data offsets, then read
each tensor sequentially from the stream. -/
def readAllRawTensors (tm : List (String × HTensor)) (body : List Nat) :
    Except (String × TRErr) (List RawTensor) :=
  readAllRawTensorsLoop body (sortByDataOffsets (tm.map Prod.snd)) 0

/-- The sequential loop of `readAllTensors` (read.go:94-106). -/
def readAllTensorsLoop (body : List Nat) :
    List HTensor → Nat → Except (String × TRErr) (List Tensor)
  | [], _ => .ok []
  | t :: rest, pos =>
    match readTensorAt body pos t with
    | .error e => .error (t.name, e)
    | .ok (tr, pos2) =>
      match readAllTensorsLoop body rest pos2 with
      | .error e => .error e
      | .ok out => .ok (tr :: out)

/-- `readAllTensors` (read.go:94-106). -/
def readAllTensors (tm : List (String × HTensor)) (body : List Nat) :
    Except (String × TRErr) (List Tensor) :=
  readAllTensorsLoop body (sortByDataOffsets (tm.map Prod.snd)) 0

/-- `LazyST.AllRawTensors` (part_004:123-128): seek once to the buffer
start and run the shared `readAllRawTensors`; in this buffer-relative model
the seek sets the position to 0, which is where `readAllRawTensors`
starts. -/
def lazyAllRawTensors (tm : List (String × HTensor)) (body : List Nat) :
    Except (String × TRErr) (List RawTensor) :=
  readAllRawTensors tm body

/-- `LazyST.AllTensors` (part_004:115-120). -/
def lazyAllTensors (tm : List (String × HTensor)) (body : List Nat) :
    Except (String × TRErr) (List Tensor) :=
  readAllTensors tm body

/-- `LazyTensor.ReadData` (part_004:199-216): nothing is read for an empty
byte range; otherwise seek to `dataOffset + begin` (checked addition, base
offset 0 in this buffer-relative model) and read exactly `end - begin`
bytes. -/
def lazyReadData (body : List Nat) (t : HTensor) : Except TRErr (List Nat) :=
  if t.offEnd - t.offBegin = 0 then .ok []
  else
    match checkedAddNonNegInt64 0 t.offBegin with
    | .error _ => .error .seekOverflow
    | .ok off =>
      if off.toNat + (t.offEnd - t.offBegin).toNat ≤ body.length then
        .ok (sliceBytes body off.toNat (t.offEnd - t.offBegin).toNat)
      else .error .truncated

/-- `LazyTensor.RawTensor` (part_004:186-197). -/
def lazyRawTensor (body : List Nat) (t : HTensor) : Except TRErr RawTensor :=
  match lazyReadData body t with
  | .error e => .error e
  | .ok data => .ok ⟨t.name, t.dType, t.shape, data⟩

/-- `LazyTensor.Tensor` (part_004:171-176): seek to the tensor data
(checked addition from the base offset 0), then the shared `readTensor`. -/
def lazyTypedTensor (body : List Nat) (t : HTensor) : Except TRErr Tensor :=
  match checkedAddNonNegInt64 0 t.offBegin with
  | .error _ => .error .seekOverflow
  | .ok off =>
    match readTensorAt body off.toNat t with
    | .error e => .error e
    | .ok (tr, _) => .ok tr

end V2

theorem dtSizeNat_pos (dt : Nat) (h : V2.dtValid dt = true) :
    0 < (V2.dtSize dt).toNat := by
  have hb : 1 ≤ dt ∧ dt ≤ 13 := by
    unfold V2.dtValid at h
    simp at h
    omega
  obtain ⟨h1, h2⟩ := hb
  interval_cases dt <;> decide

theorem sliceBytes_length (body : List Nat) (s len : Nat)
    (h : s + len ≤ body.length) :
    (V2.sliceBytes body s len).length = len := by
  unfold V2.sliceBytes
  rw [List.length_take, List.length_drop]
  omega

theorem readTensorAt_spec (body : List Nat) (t : V2.HTensor)
    (hok : V2.tensorOk t) (hbeg : 0 ≤ t.offBegin)
    (hlen : t.offEnd.toNat ≤ body.length) :
    V2.readTensorAt body t.offBegin.toNat t =
      .ok (V2.typedOf body t,
        t.offBegin.toNat + (t.offEnd - t.offBegin).toNat) := by
  obtain ⟨hdt, -, -, -, hsz⟩ := hok
  have hw : 0 < (V2.dtSize t.dType).toNat := dtSizeNat_pos _ hdt
  have hNt : (t.offEnd - t.offBegin).toNat =
      V2.shapeProd t.shape * (V2.dtSize t.dType).toNat := by omega
  have hcount : (t.offEnd - t.offBegin).toNat / (V2.dtSize t.dType).toNat =
      V2.shapeProd t.shape := by
    rw [hNt]
    exact Nat.mul_div_cancel _ hw
  have hb : t.offBegin.toNat + (t.offEnd - t.offBegin).toNat ≤ body.length := by
    omega
  unfold V2.readTensorAt
  rw [if_pos hb]
  have hdecode : V2.decodeTyped t.dType
      (V2.sliceBytes body t.offBegin.toNat (t.offEnd - t.offBegin).toNat)
      ((t.offEnd - t.offBegin).toNat / (V2.dtSize t.dType).toNat) =
      .ok (V2.mkTyped t.dType
        (V2.leWords (V2.dtSize t.dType).toNat
          (V2.sliceBytes body t.offBegin.toNat (t.offEnd - t.offBegin).toNat)
          ((t.offEnd - t.offBegin).toNat / (V2.dtSize t.dType).toNat))) := by
    unfold V2.decodeTyped
    rw [if_pos hdt, if_pos]
    rw [hcount, sliceBytes_length body _ _ hb, hNt]
  rw [hdecode]
  rfl

theorem chainStep_eq (t : V2.HTensor) (hok : V2.tensorOk t)
    (hbeg : 0 ≤ t.offBegin) :
    t.offBegin.toNat + (t.offEnd - t.offBegin).toNat = t.offEnd.toNat
    ∧ 0 ≤ t.offEnd := by
  obtain ⟨-, -, -, -, hsz⟩ := hok
  have h0 : (0 : Int) ≤ (V2.shapeProd t.shape * (V2.dtSize t.dType).toNat : Nat) :=
    Int.natCast_nonneg _
  omega

theorem readAllRawLoop_spec (body : List Nat) (ts : List V2.HTensor)
    (cur : Int) (hchain : V2.offsetsChain cur ts)
    (hok : ∀ t ∈ ts, V2.tensorOk t) (hcur : 0 ≤ cur)
    (hlen : ∀ t ∈ ts, t.offEnd.toNat ≤ body.length) :
    V2.readAllRawTensorsLoop body ts cur.toNat =
      .ok (ts.map fun t =>
        ⟨t.name, t.dType, t.shape,
          V2.sliceBytes body t.offBegin.toNat (t.offEnd - t.offBegin).toNat⟩) := by
  induction ts generalizing cur with
  | nil => rfl
  | cons t rest ih =>
    obtain ⟨hb, hchain2⟩ := hchain
    have htok := hok t (by simp)
    obtain ⟨hstep, hend0⟩ := chainStep_eq t htok (hb ▸ hcur)
    have hrest := ih t.offEnd hchain2 (fun u hu => hok u (List.mem_cons_of_mem t hu))
      hend0 (fun u hu => hlen u (List.mem_cons_of_mem t hu))
    unfold V2.readAllRawTensorsLoop
    by_cases h0 : (t.offEnd - t.offBegin).toNat = 0
    · have hposeq : cur.toNat = t.offEnd.toNat := by omega
      rw [show V2.readRawTensorAt body cur.toNat t =
          .ok (⟨t.name, t.dType, t.shape, []⟩, cur.toNat) from by
        unfold V2.readRawTensorAt
        rw [if_pos h0]]
      dsimp only
      rw [hposeq, hrest]
      simp only [List.map_cons]
      rw [show V2.sliceBytes body t.offBegin.toNat
          (t.offEnd - t.offBegin).toNat = [] from by rw [h0]; rfl]
    · have hble : cur.toNat + (t.offEnd - t.offBegin).toNat ≤ body.length := by
        have := hlen t (by simp)
        omega
      rw [show V2.readRawTensorAt body cur.toNat t =
          .ok (⟨t.name, t.dType, t.shape,
            V2.sliceBytes body cur.toNat (t.offEnd - t.offBegin).toNat⟩,
           cur.toNat + (t.offEnd - t.offBegin).toNat) from by
        unfold V2.readRawTensorAt
        rw [if_neg h0, if_pos hble]]
      dsimp only
      rw [show cur.toNat + (t.offEnd - t.offBegin).toNat = t.offEnd.toNat
          from by omega]
      rw [hrest]
      simp only [List.map_cons]
      rw [show cur.toNat = t.offBegin.toNat from by omega]

theorem readAllTypedLoop_spec (body : List Nat) (ts : List V2.HTensor)
    (cur : Int) (hchain : V2.offsetsChain cur ts)
    (hok : ∀ t ∈ ts, V2.tensorOk t) (hcur : 0 ≤ cur)
    (hlen : ∀ t ∈ ts, t.offEnd.toNat ≤ body.length) :
    V2.readAllTensorsLoop body ts cur.toNat =
      .ok (ts.map (V2.typedOf body)) := by
  induction ts generalizing cur with
  | nil => rfl
  | cons t rest ih =>
    obtain ⟨hb, hchain2⟩ := hchain
    have htok := hok t (by simp)
    have hbeg : 0 ≤ t.offBegin := hb ▸ hcur
    obtain ⟨hstep, hend0⟩ := chainStep_eq t htok hbeg
    have hrest := ih t.offEnd hchain2 (fun u hu => hok u (List.mem_cons_of_mem t hu))
      hend0 (fun u hu => hlen u (List.mem_cons_of_mem t hu))
    unfold V2.readAllTensorsLoop
    have hcurb : cur.toNat = t.offBegin.toNat := by omega
    rw [hcurb, readTensorAt_spec body t htok hbeg (hlen t (by simp))]
    dsimp only
    rw [hstep, hrest]
    rfl

theorem chain_mem_bounds (ts : List V2.HTensor) (cur : Int)
    (hchain : V2.offsetsChain cur ts) (hok : ∀ t ∈ ts, V2.tensorOk t)
    (hcur : 0 ≤ cur) :
    ∀ t ∈ ts, 0 ≤ t.offBegin := by
  induction ts generalizing cur with
  | nil => intro t ht; simp at ht
  | cons t rest ih =>
    obtain ⟨hb, hchain2⟩ := hchain
    have htok := hok t (by simp)
    obtain ⟨-, hend0⟩ := chainStep_eq t htok (hb ▸ hcur)
    intro u hu
    rcases List.mem_cons.1 hu with rfl | hu
    · exact hb ▸ hcur
    · exact ih t.offEnd hchain2
        (fun w hw => hok w (List.mem_cons_of_mem t hw)) hend0 u hu

theorem checkedAdd_zero_left (b : Int) (hb : 0 ≤ b) :
    V2.checkedAddNonNegInt64 0 b = .ok b := by
  unfold V2.checkedAddNonNegInt64
  rw [if_neg (by omega), if_pos (Or.inl rfl)]
  norm_num

theorem lazyReadData_spec (body : List Nat) (t : V2.HTensor)
    (hok : V2.tensorOk t) (hbeg : 0 ≤ t.offBegin)
    (hlen : t.offEnd.toNat ≤ body.length) :
    V2.lazyReadData body t =
      .ok (V2.sliceBytes body t.offBegin.toNat
        (t.offEnd - t.offBegin).toNat) := by
  obtain ⟨hstep, hend0⟩ := chainStep_eq t hok hbeg
  unfold V2.lazyReadData
  by_cases h0 : t.offEnd - t.offBegin = 0
  · rw [if_pos h0]
    rw [show (t.offEnd - t.offBegin).toNat = 0 from by omega]
    rfl
  · rw [if_neg h0, checkedAdd_zero_left t.offBegin hbeg]
    dsimp only
    rw [if_pos (by omega)]

theorem lazyRawTensor_spec (body : List Nat) (t : V2.HTensor)
    (hok : V2.tensorOk t) (hbeg : 0 ≤ t.offBegin)
    (hlen : t.offEnd.toNat ≤ body.length) :
    V2.lazyRawTensor body t =
      .ok ⟨t.name, t.dType, t.shape,
        V2.sliceBytes body t.offBegin.toNat (t.offEnd - t.offBegin).toNat⟩ := by
  unfold V2.lazyRawTensor
  rw [lazyReadData_spec body t hok hbeg hlen]

theorem lazyTypedTensor_spec (body : List Nat) (t : V2.HTensor)
    (hok : V2.tensorOk t) (hbeg : 0 ≤ t.offBegin)
    (hlen : t.offEnd.toNat ≤ body.length) :
    V2.lazyTypedTensor body t = .ok (V2.typedOf body t) := by
  unfold V2.lazyTypedTensor
  rw [checkedAdd_zero_left t.offBegin hbeg]
  dsimp only
  rw [readTensorAt_spec body t hok hbeg hlen]

/-- C3: for a well-formed input (a header that passes validation, with a
byte buffer long enough for every declared range), reading through the lazy
reader — the bulk `AllTensors`/`AllRawTensors`, or each named handle
individually — produces tensors equal in name, dtype, shape and byte
content to those produced by the eager `ReadAll`/`ReadAllRaw` on the same
bytes: the bulk lazy paths are the same computation as the eager ones, and
each per-handle read returns exactly the entry the eager reader produces
for that tensor. -/
theorem c3_lazy_eager (tm : List (String × V2.HTensor)) (body : List Nat)
    (hv : V2.validateTensors tm = .ok ())
    (hlen : ∀ p ∈ tm, p.2.offEnd.toNat ≤ body.length) :
    V2.readAllRawTensors tm body =
      .ok ((V2.sortByDataOffsets (tm.map Prod.snd)).map fun t =>
        ⟨t.name, t.dType, t.shape,
          V2.sliceBytes body t.offBegin.toNat (t.offEnd - t.offBegin).toNat⟩)
    ∧ V2.lazyAllRawTensors tm body = V2.readAllRawTensors tm body
    ∧ V2.readAllTensors tm body =
        .ok ((V2.sortByDataOffsets (tm.map Prod.snd)).map (V2.typedOf body))
    ∧ V2.lazyAllTensors tm body = V2.readAllTensors tm body
    ∧ (∀ p ∈ tm, V2.lazyRawTensor body p.2 =
        .ok ⟨p.2.name, p.2.dType, p.2.shape,
          V2.sliceBytes body p.2.offBegin.toNat
            (p.2.offEnd - p.2.offBegin).toNat⟩)
    ∧ (∀ p ∈ tm, V2.lazyTypedTensor body p.2 = .ok (V2.typedOf body p.2)) := by
  have hwalk : V2.validateWalk (V2.sortByDataOffsets (tm.map Prod.snd)) 0 =
      .ok () := by
    unfold V2.validateTensors at hv
    rcases hn : V2.validateTensorNames tm with e | u
    · rw [hn] at hv
      exact absurd hv (by simp)
    · rw [hn] at hv
      exact hv
  obtain ⟨hchain, hall⟩ := (V2.validateWalk_eq_ok_iff _ 0).1 hwalk
  have hsortlen : ∀ t ∈ V2.sortByDataOffsets (tm.map Prod.snd),
      t.offEnd.toNat ≤ body.length := by
    intro t ht
    have hmem : t ∈ tm.map Prod.snd :=
      ((List.perm_insertionSort V2.offLe _).mem_iff).1 ht
    obtain ⟨p, hp, rfl⟩ := List.mem_map.1 hmem
    exact hlen p hp
  have hraw := readAllRawLoop_spec body _ 0 hchain hall (le_refl 0) hsortlen
  have htyped := readAllTypedLoop_spec body _ 0 hchain hall (le_refl 0) hsortlen
  have hbeg : ∀ t ∈ V2.sortByDataOffsets (tm.map Prod.snd), 0 ≤ t.offBegin :=
    chain_mem_bounds _ 0 hchain hall (le_refl 0)
  have hmem : ∀ p ∈ tm, p.2 ∈ V2.sortByDataOffsets (tm.map Prod.snd) := by
    intro p hp
    exact ((List.perm_insertionSort V2.offLe _).mem_iff).2
      (List.mem_map_of_mem Prod.snd hp)
  refine ⟨hraw, rfl, htyped, rfl, ?_, ?_⟩
  · intro p hp
    exact lazyRawTensor_spec body p.2 (hall _ (hmem p hp)) (hbeg _ (hmem p hp))
      (hsortlen _ (hmem p hp))
  · intro p hp
    exact lazyTypedTensor_spec body p.2 (hall _ (hmem p hp))
      (hbeg _ (hmem p hp)) (hsortlen _ (hmem p hp))

/-- C3 witness: a concrete validated one-tensor header over a one-byte
buffer; the lazy per-handle read yields the byte the eager reader yields. -/
theorem c3_lazy_eager_witness :
    V2.validateTensors [("a", ⟨"a", 2, [1], 0, 1⟩)] = .ok ()
    ∧ V2.lazyRawTensor [7] ⟨"a", 2, [1], 0, 1⟩ = .ok ⟨"a", 2, [1], [7]⟩
    ∧ V2.readAllRawTensors [("a", ⟨"a", 2, [1], 0, 1⟩)] [7] =
        .ok [⟨"a", 2, [1], [7]⟩] := by
  have h := c3_lazy_eager [("a", ⟨"a", 2, [1], 0, 1⟩)] [7] (by decide)
    (by decide)
  refine ⟨by decide, ?_, ?_⟩
  · exact (h.2.2.2.2.1 ("a", ⟨"a", 2, [1], 0, 1⟩) (by decide)).trans (by rfl)
  · exact h.1.trans (by rfl)

namespace JB

/-- JSON values as decoded by `encoding/json` with `UseNumber`: number
literals keep their bytes, strings are decoded byte sequences.  This models
the external standard-library decoder used by `header.Read`
(header/read.go); `\uXXXX` string escapes are outside the model. -/
inductive JVal
  | jnull
  | jtrue
  | jfalse
  | jnum (lit : List Nat)
  | jstr (s : List Nat)
  | jarr (xs : List JVal)
  | jobj (fs : List (List Nat × JVal))

def isWs (b : Nat) : Bool := b == 32 || b == 9 || b == 10 || b == 13

def isDigit (b : Nat) : Bool := 48 ≤ b && b ≤ 57

def isNumByte (b : Nat) : Bool :=
  isDigit b || b == 45 || b == 43 || b == 46 || b == 101 || b == 69

/-- String body parser (after the opening quote): returns the decoded
content bytes and the input after the closing quote. -/
def parseStrBytes : List Nat → Option (List Nat × List Nat)
  | [] => none
  | 34 :: rest => some ([], rest)
  | 92 :: e :: rest =>
    match
      (if e = 34 then some 34 else if e = 92 then some 92
       else if e = 47 then some 47 else if e = 98 then some 8
       else if e = 102 then some 12 else if e = 110 then some 10
       else if e = 114 then some 13 else if e = 116 then some 9
       else none : Option Nat) with
    | none => none
    | some c =>
      match parseStrBytes rest with
      | none => none
      | some (s, r) => some (c :: s, r)
  | b :: rest =>
    match parseStrBytes rest with
    | none => none
    | some (s, r) => some (b :: s, r)

mutual

def parseVal : Nat → List Nat → Option (JVal × List Nat)
  | 0, _ => none
  | fuel + 1, s =>
    match s.dropWhile isWs with
    | [] => none
    | 123 :: rest =>
      match rest.dropWhile isWs with
      | 125 :: r2 => some (.jobj [], r2)
      | _ => parseObjFields fuel rest []
    | 91 :: rest =>
      match rest.dropWhile isWs with
      | 93 :: r2 => some (.jarr [], r2)
      | _ => parseArrItems fuel rest []
    | 34 :: rest =>
      match parseStrBytes rest with
      | none => none
      | some (str, r) => some (.jstr str, r)
    | 116 :: 114 :: 117 :: 101 :: r => some (.jtrue, r)
    | 102 :: 97 :: 108 :: 115 :: 101 :: r => some (.jfalse, r)
    | 110 :: 117 :: 108 :: 108 :: r => some (.jnull, r)
    | b :: rest =>
      if isDigit b || b == 45 then
        some (.jnum (b :: rest.takeWhile isNumByte), rest.dropWhile isNumByte)
      else none

def parseObjFields :
    Nat → List Nat → List (List Nat × JVal) → Option (JVal × List Nat)
  | 0, _, _ => none
  | fuel + 1, s, acc =>
    match s.dropWhile isWs with
    | 34 :: rest =>
      match parseStrBytes rest with
      | none => none
      | some (key, r1) =>
        match r1.dropWhile isWs with
        | 58 :: r2 =>
          match parseVal fuel r2 with
          | none => none
          | some (v, r3) =>
            match r3.dropWhile isWs with
            | 44 :: r4 => parseObjFields fuel r4 (acc ++ [(key, v)])
            | 125 :: r4 => some (.jobj (acc ++ [(key, v)]), r4)
            | _ => none
        | _ => none
    | _ => none

def parseArrItems : Nat → List Nat → List JVal → Option (JVal × List Nat)
  | 0, _, _ => none
  | fuel + 1, s, acc =>
    match parseVal fuel s with
    | none => none
    | some (v, r) =>
      match r.dropWhile isWs with
      | 44 :: r2 => parseArrItems fuel r2 (acc ++ [v])
      | 93 :: r2 => some (.jarr (acc ++ [v]), r2)
      | _ => none

end

end JB

namespace V2

/-- Go map assignment on an association list: replaces the value of an
existing key, appends otherwise. -/
def upsertK {α : Type} : List (List Nat × α) → List Nat → α → List (List Nat × α)
  | [], k, v => [(k, v)]
  | (k0, v0) :: rest, k, v =>
    if k0 = k then (k0, v) :: rest else (k0, v0) :: upsertK rest k v

/-- Duplicate JSON object keys resolved as `encoding/json` does for a Go
map: the later entry wins. -/
def dedupFields (fs : List (List Nat × JB.JVal)) : List (List Nat × JB.JVal) :=
  fs.foldl (fun acc p => upsertK acc p.1 p.2) []

/-- Decoding the parsed value into `rawDecodedHeader =
map[string]map[string]any`: the top value and every member value must be
JSON objects. -/
def toRawTensorMaps :
    List (List Nat × JB.JVal) →
      Option (List (List Nat × List (List Nat × JB.JVal)))
  | [] => some []
  | (k, .jobj g) :: rest =>
    match toRawTensorMaps rest with
    | none => none
    | some r => some ((k, dedupFields g) :: r)
  | _ => none

def decodeRawHeader (v : JB.JVal) :
    Option (List (List Nat × List (List Nat × JB.JVal))) :=
  match v with
  | .jobj fs => toRawTensorMaps (dedupFields fs)
  | _ => none

inductive JErr
  | decodeFailed
  | trailingData
deriving DecidableEq, Repr

/-- `readAndDecodeJSON` (header/read.go:68-85): decode one JSON value from
the `size`-limited region; if the decoder stopped before `size` bytes, the
remainder may hold only whitespace (the padding), otherwise it is an
"unexpected data" error. -/
def readAndDecodeJSONBytes (rest : List Nat) (size : Nat) :
    Except JErr (List (List Nat × List (List Nat × JB.JVal))) :=
  match JB.parseVal ((rest.take size).length + 1) (rest.take size) with
  | none => .error .decodeFailed
  | some (v, remaining) =>
    match decodeRawHeader v with
    | none => .error .decodeFailed
    | some raw =>
      if (rest.take size).length - remaining.length ≠ size then
        if remaining.dropWhile JB.isWs ≠ [] then .error .trailingData
        else .ok raw
      else .ok raw

/-- `dtype.DType.UnmarshalText` (part_008) on the string's bytes. -/
def tagToDType (s : List Nat) : Option Nat :=
  if s = [66, 79, 79, 76] then some 1
  else if s = [85, 56] then some 2
  else if s = [73, 56] then some 3
  else if s = [85, 49, 54] then some 4
  else if s = [73, 49, 54] then some 5
  else if s = [70, 49, 54] then some 6
  else if s = [66, 70, 49, 54] then some 7
  else if s = [85, 51, 50] then some 8
  else if s = [73, 51, 50] then some 9
  else if s = [70, 51, 50] then some 10
  else if s = [85, 54, 52] then some 11
  else if s = [73, 54, 52] then some 12
  else if s = [70, 54, 52] then some 13
  else none

def digitsToNat : List Nat → Option Nat
  | [] => none
  | ds => ds.foldlM (fun acc b =>
      if JB.isDigit b then some (acc * 10 + (b - 48)) else none) 0

/-- `convertNonNegInt` (header/read.go:200-213): `strconv.ParseInt` of the
`json.Number` literal (64-bit signed range), then a non-negativity check. -/
def convertNonNegInt (v : JB.JVal) : Option Int :=
  match v with
  | .jnum lit =>
    match
      (match lit with
       | 45 :: ds => (digitsToNat ds).map (fun n => -(n : Int))
       | ds => (digitsToNat ds).map (fun n => (n : Int))) with
    | none => none
    | some z =>
      if z > 2 ^ 63 - 1 then none
      else if z < 0 then none
      else some z
  | _ => none

structure TensorB where
  name : List Nat
  dType : Nat
  shape : List Int
  offBegin : Int
  offEnd : Int
deriving DecidableEq, Repr

/-- Byte-level header as produced by `header.Read` (names kept as byte
strings). -/
structure HeaderB where
  tensors : List (List Nat × TensorB)
  metadata : List (List Nat × List Nat)
  byteBufferOffset : Nat
deriving DecidableEq, Repr

inductive HBErr
  | sizeReadFailed
  | sizeTooSmall (n : Nat)
  | sizeTooLarge (n : Nat)
  | jsonDecode (e : JErr)
  | badMetadata
  | badTensor (key : List Nat)
deriving DecidableEq, Repr

def lookupA {α : Type} : List (List Nat × α) → List Nat → Option α
  | [], _ => none
  | (k0, v) :: rest, k => if k0 = k then some v else lookupA rest k

def removeKey {α : Type} : List (List Nat × α) → List Nat → List (List Nat × α)
  | [], _ => []
  | (k0, v) :: rest, k =>
    if k0 = k then removeKey rest k else (k0, v) :: removeKey rest k

/-- `convertRawMetadata` (header/read.go:98-110): every value must be a
string. -/
def convertRawMetadataB :
    List (List Nat × JB.JVal) → Option (List (List Nat × List Nat))
  | [] => some []
  | (k, .jstr s) :: rest =>
    match convertRawMetadataB rest with
    | none => none
    | some r => some ((k, s) :: r)
  | _ => none

def convertShapeItems : List JB.JVal → Option (List Int)
  | [] => some []
  | v :: rest =>
    match convertNonNegInt v with
    | none => none
    | some z =>
      match convertShapeItems rest with
      | none => none
      | some r => some (z :: r)

/-- `convertRawTensor` (header/read.go:126-198): the three mandatory
fields, and no others. -/
def convertRawTensorB (key : List Nat) (fs : List (List Nat × JB.JVal)) :
    Option TensorB := do
  let dtv ← lookupA fs [100, 116, 121, 112, 101]
  let dt ← match dtv with
    | .jstr s => tagToDType s
    | _ => none
  let shv ← lookupA fs [115, 104, 97, 112, 101]
  let shape ← match shv with
    | .jarr items => convertShapeItems items
    | _ => none
  let dov ← lookupA fs [100, 97, 116, 97, 95, 111, 102, 102, 115, 101, 116, 115]
  let offs ← match dov with
    | .jarr [a, b] => do
      let x ← convertNonNegInt a
      let y ← convertNonNegInt b
      pure (x, y)
    | _ => none
  if fs.length = 3 then
    pure ⟨key, dt, shape, offs.1, offs.2⟩
  else none

def convertRawTensorsB :
    List (List Nat × List (List Nat × JB.JVal)) →
      Except HBErr (List (List Nat × TensorB))
  | [] => .ok []
  | (k, fs) :: rest =>
    match convertRawTensorB k fs with
    | none => .error (.badTensor k)
    | some t =>
      match convertRawTensorsB rest with
      | .error e => .error e
      | .ok r => .ok ((k, t) :: r)

def metadataKeyBytes : List Nat :=
  [95, 95, 109, 101, 116, 97, 100, 97, 116, 97, 95, 95]

/-- `convertRawHeader` (header/read.go:87-96). -/
def convertRawHeaderB (raw : List (List Nat × List (List Nat × JB.JVal))) :
    Except HBErr (List (List Nat × TensorB) × List (List Nat × List Nat)) :=
  match lookupA raw metadataKeyBytes with
  | some m =>
    match convertRawMetadataB m with
    | none => .error .badMetadata
    | some md =>
      match convertRawTensorsB (removeKey raw metadataKeyBytes) with
      | .error e => .error e
      | .ok ts => .ok (ts, md)
  | none =>
    match convertRawTensorsB raw with
    | .error e => .error e
    | .ok ts => .ok (ts, [])

def le64val (bs : List Nat) : Nat :=
  match bs with
  | [b0, b1, b2, b3, b4, b5, b6, b7] =>
    b0 + 256 * (b1 + 256 * (b2 + 256 * (b3 + 256 *
      (b4 + 256 * (b5 + 256 * (b6 + 256 * b7))))))
  | _ => 0

/-- `header.Read` (header/read.go:34-57): the 8-byte little-endian size
prefix, the two size guards (`size < 2`, `size > math.MaxInt - 8` with
`math.MaxInt = 2^63 - 1`), then JSON decode, raw conversion and the
byte-buffer offset `8 + size`. -/
def headerRead (input : List Nat) : Except HBErr HeaderB :=
  if input.length < 8 then .error .sizeReadFailed
  else if le64val (input.take 8) < 2 then
    .error (.sizeTooSmall (le64val (input.take 8)))
  else if le64val (input.take 8) > 2 ^ 63 - 1 - 8 then
    .error (.sizeTooLarge (le64val (input.take 8)))
  else
    match readAndDecodeJSONBytes (input.drop 8) (le64val (input.take 8)) with
    | .error e => .error (.jsonDecode e)
    | .ok raw =>
      match convertRawHeaderB raw with
      | .error e => .error e
      | .ok (ts, md) => .ok ⟨ts, md, 8 + le64val (input.take 8)⟩

end V2

namespace V1

/-- A JSON header object entry: the reserved metadata object or a
tensor-info object (the two value shapes `Metadata.MarshalJSON` ever
produces). -/
inductive WEntry
  | meta (kvs : List (String × String))
  | tensor (info : TensorInfo)
deriving DecidableEq, Repr

/-- Go map assignment modelled on an association list. -/
def upsertW : List (String × WEntry) → String → WEntry → List (String × WEntry)
  | [], k, v => [(k, v)]
  | (k0, v0) :: rest, k, v =>
    if k0 = k then (k0, v) :: rest else (k0, v0) :: upsertW rest k v

/-- `Metadata` (part_007:73-77): the parallel `tensors` array and
`indexMap` are embedded as one association list in index order. -/
structure Metadata where
  metadata : List (String × String)
  tensors : List (String × TensorInfo)
deriving DecidableEq, Repr

/-- `newMetadata` (part_007:79-93). -/
def newMetadata (md : List (String × String))
    (ts : List (String × TensorInfo)) : Metadata :=
  ⟨md, ts⟩

/-- `Metadata.MarshalJSON` (part_007:302-311) at the structural level: the
`__metadata__` entry when non-empty, then one map assignment per tensor
(so a tensor actually named `__metadata__` overwrites the metadata
entry). -/
def marshalMetadata (m : Metadata) : List (String × WEntry) :=
  m.tensors.foldl (fun acc p => upsertW acc p.1 (.tensor p.2))
    (if m.metadata.isEmpty then [] else [("__metadata__", .meta m.metadata)])

/-- Models the byte length contributed by one string in Go's
`encoding/json` output (quotes, short escapes, `\u00XX` control escapes
and the HTML escapes for `<`, `>`, `&`). -/
def escLen (c : Char) : Nat :=
  if c = '"' ∨ c = '\\' then 2
  else if c = '\n' ∨ c = '\r' ∨ c = '\t' then 2
  else if c.toNat < 32 then 6
  else if c = '<' ∨ c = '>' ∨ c = '&' then 6
  else c.utf8Size

def jstrLen (s : String) : Nat := 2 + (s.data.map escLen).sum

def jnumLen (k : Nat) : Nat := (Nat.repr k).length

def jarrLen (ns : List Nat) : Nat :=
  if ns.isEmpty then 2 else 2 + (ns.map jnumLen).sum + (ns.length - 1)

def dtypeTagLen (dt : DType) : Nat :=
  match dt with
  | .BOOL => 6 | .U8 => 4 | .I8 => 4 | .I16 => 5 | .U16 => 5 | .F16 => 5
  | .BF16 => 6 | .I32 => 5 | .U32 => 5 | .F32 => 5 | .F64 => 5 | .I64 => 5
  | .U64 => 5

/-- Byte length of the JSON encoding of one `TensorInfo`
(`{"dtype":…,"shape":…,"data_offsets":…}`). -/
def tensorInfoLen (i : TensorInfo) : Nat :=
  2 + (jstrLen "dtype" + 1 + dtypeTagLen i.dType)
    + 1 + (jstrLen "shape" + 1 + jarrLen i.shape)
    + 1 + (jstrLen "data_offsets" + 1 + jarrLen [i.off0, i.off1])

def metaObjLen (kvs : List (String × String)) : Nat :=
  if kvs.isEmpty then 2
  else 2 + (kvs.map (fun p => jstrLen p.1 + 1 + jstrLen p.2)).sum
    + (kvs.length - 1)

def wentryLen : WEntry → Nat
  | .meta kvs => metaObjLen kvs
  | .tensor i => tensorInfoLen i

/-- Byte length of `json.Marshal` of the whole header object. -/
def headerJsonLen (w : List (String × WEntry)) : Nat :=
  if w.isEmpty then 2
  else 2 + (w.map (fun p => jstrLen p.1 + 1 + wentryLen p.2)).sum
    + (w.length - 1)

/-- The serialized byte buffer at the structural level: it stands for the
8-byte little-endian prefix holding `n = headerJsonLen header + pad`,
followed by the JSON text of `header` and `pad` ASCII spaces, followed by
the raw data buffer, so the total byte length is `8 + n + data.length`. -/
structure Serialized where
  header : List (String × WEntry)
  pad : Nat
  data : List Nat
deriving DecidableEq, Repr

def Serialized.n (s : Serialized) : Nat := headerJsonLen s.header + s.pad

inductive DErr
  | headerTooLarge (n : Nat)
  | metadataNonString
  | tensorDecode (k : String)
  | invalidOffset (nm : String)
  | numElements (e : MulErr)
  | numBytes (e : MulErr)
  | offsetsMismatch
  | incompleteBuffer
deriving DecidableEq, Repr

/-- `unmarshalMetadata` (part_007:196-206) on a wire entry: every value of
the object must be a string, and a tensor-info object always carries the
non-string `shape`/`data_offsets` arrays. -/
def unmarshalMetaEntry : WEntry → Except DErr (List (String × String))
  | .meta kvs => .ok kvs
  | .tensor _ => .error .metadataNonString

/-- `unmarshalTensorInfo` (part_007:208-233) on a wire entry: a metadata
object lacks the three mandatory tensor fields. -/
def unmarshalTensorEntry (k : String) : WEntry → Except DErr TensorInfo
  | .tensor i => .ok i
  | .meta _ => .error (.tensorDecode k)

/-- Reflexive closure of the sort comparator of `Metadata.UnmarshalJSON`
(part_007:186-190): ascending `(DataOffsets[0], DataOffsets[1])`. -/
def infoLe (a b : String × TensorInfo) : Prop :=
  a.2.off0 < b.2.off0 ∨ (a.2.off0 = b.2.off0 ∧ a.2.off1 ≤ b.2.off1)

instance : DecidableRel infoLe := fun a b => by
  unfold infoLe
  infer_instance

instance : IsTotal (String × TensorInfo) infoLe :=
  ⟨by intro a b; unfold infoLe; omega⟩

instance : IsTrans (String × TensorInfo) infoLe :=
  ⟨by intro a b c; unfold infoLe; omega⟩

/-- The entry loop of `Metadata.UnmarshalJSON` (part_007:164-180). -/
def unmarshalLoop :
    List (String × WEntry) → List (String × String) →
      List (String × TensorInfo) →
      Except DErr (List (String × String) × List (String × TensorInfo))
  | [], md, ts => .ok (md, ts)
  | (k, e) :: rest, md, ts =>
    if k = "__metadata__" then
      match unmarshalMetaEntry e with
      | .error er => .error er
      | .ok kvs => unmarshalLoop rest kvs ts
    else
      match unmarshalTensorEntry k e with
      | .error er => .error er
      | .ok i => unmarshalLoop rest md (ts ++ [(k, i)])

/-- `Metadata.UnmarshalJSON` (part_007:151-194): collect metadata and
tensors, then sort the tensors by ascending data offsets. -/
def unmarshalMetadata (w : List (String × WEntry)) : Except DErr Metadata :=
  match unmarshalLoop w [] [] with
  | .error e => .error e
  | .ok (md, ts) => .ok (newMetadata md (List.insertionSort infoLe ts))

/-- The walk of `Metadata.validate` (part_007:98-135). -/
def metadataValidateLoop :
    List (String × TensorInfo) → Nat → Except DErr Nat
  | [], start => .ok start
  | (nm, info) :: rest, start =>
    if info.off0 ≠ start ∨ info.off1 < info.off0 then
      .error (.invalidOffset nm)
    else
      match metadataNumElements info.shape with
      | .error e => .error (.numElements e)
      | .ok numElements =>
        match checkedMul numElements info.dType.size with
        | .error e => .error (.numBytes e)
        | .ok numBytes =>
          if info.off1 - info.off0 ≠ numBytes then .error .offsetsMismatch
          else metadataValidateLoop rest info.off1

def metadataValidate (m : Metadata) : Except DErr Nat :=
  metadataValidateLoop m.tensors 0

/-- `ReadMetadata` (safetensors.go:39-69) at the structural level: the
`maxHeaderSize = 100_000_000` ceiling on `n`, the JSON decode of the
header region, metadata validation, and the total-length check
`bufferEnd + 8 + n == bufferLen` (here `bufferLen = 8 + n + data.length`
by the layout of `Serialized`; the checks `bufferLen < 8` and
`stop > bufferLen` cannot fail on this structural representation). -/
def ReadMetadata (buf : Serialized) : Except DErr (Nat × Metadata) :=
  if buf.n > 100000000 then .error (.headerTooLarge buf.n)
  else
    match unmarshalMetadata buf.header with
    | .error e => .error e
    | .ok md =>
      match metadataValidate md with
      | .error e => .error e
      | .ok bufferEnd =>
        if bufferEnd + 8 + buf.n ≠ 8 + buf.n + buf.data.length then
          .error .incompleteBuffer
        else .ok (buf.n, md)

structure SafeTensors where
  metadata : Metadata
  data : List Nat
deriving DecidableEq, Repr

/-- `Deserialize` (safetensors.go:26-35): parse the header, keep the
buffer `buffer[n+8:]`. -/
def Deserialize (buf : Serialized) : Except DErr SafeTensors :=
  match ReadMetadata buf with
  | .error e => .error e
  | .ok (_, md) => .ok ⟨md, buf.data⟩

def sliceData (data : List Nat) (s e : Nat) : List Nat :=
  (data.drop s).take (e - s)

/-- `SafeTensors.Tensors` (safetensors.go:72-86): one named view per
tensor, its data the slice `data[off0:off1]`. -/
def tensorViews (st : SafeTensors) : List (String × TensorView) :=
  st.metadata.tensors.map fun p =>
    (p.1, ⟨p.2.dType, p.2.shape, sliceData st.data p.2.off0 p.2.off1⟩)

structure PreparedData where
  n : Nat
  headerWire : List (String × WEntry)
  pad : Nat
  offset : Nat
deriving DecidableEq, Repr

def offsetsTotal : List (String × TensorView) → Nat → Nat
  | [], acc => acc
  | (_, v) :: rest, acc =>
    offsetsTotal rest ((acc + v.data.length % 2 ^ 64) % 2 ^ 64)

/-- `prepare` (safetensors.go:178-233): sort, assign offsets, build the
metadata, marshal it and pad the JSON text to an 8-byte multiple. -/
def prepare (dataMap : List (String × TensorView))
    (dataInfo : List (String × String)) : PreparedData × List TensorView :=
  (⟨headerJsonLen (marshalMetadata
       (newMetadata dataInfo (assignOffsets (prepareSort dataMap) 0)))
     + (8 - headerJsonLen (marshalMetadata
       (newMetadata dataInfo (assignOffsets (prepareSort dataMap) 0))) % 8) % 8,
    marshalMetadata
      (newMetadata dataInfo (assignOffsets (prepareSort dataMap) 0)),
    (8 - headerJsonLen (marshalMetadata
      (newMetadata dataInfo (assignOffsets (prepareSort dataMap) 0))) % 8) % 8,
    offsetsTotal (prepareSort dataMap) 0⟩,
   (prepareSort dataMap).map Prod.snd)

/-- `Serialize` (safetensors.go:123-136): length prefix, header bytes,
then every tensor's data in the prepared order. -/
def Serialize (dataMap : List (String × TensorView))
    (dataInfo : List (String × String)) : Serialized :=
  ⟨(prepare dataMap dataInfo).1.headerWire,
   (prepare dataMap dataInfo).1.pad,
   (((prepare dataMap dataInfo).2).map (fun v => v.data)).flatten⟩

end V1

/-- C4 (amended): `header.Read` rejects a length prefix `N < 2` with a
header-size-too-small error and `N > math.MaxInt - 8 = 2^63 - 9` with a
header-size-too-large error, in both cases before reading or JSON-decoding
any header byte, for every input stream (and a stream shorter than 8 bytes
fails the size read itself); the ~10^8 ceiling the claim mentions belongs
to the map-based `ReadMetadata`, which rejects `n > maxHeaderSize =
100_000_000` before JSON-decoding but performs **no** minimum-size
check. -/
theorem c4_header_size_guards :
    (∀ input : List Nat, 8 ≤ input.length →
      V2.le64val (input.take 8) < 2 →
      V2.headerRead input = .error (.sizeTooSmall (V2.le64val (input.take 8))))
    ∧ (∀ input : List Nat, 8 ≤ input.length →
      2 ^ 63 - 9 < V2.le64val (input.take 8) →
      V2.headerRead input = .error (.sizeTooLarge (V2.le64val (input.take 8))))
    ∧ (∀ input : List Nat, input.length < 8 →
      V2.headerRead input = .error .sizeReadFailed)
    ∧ (∀ buf : V1.Serialized, 100000000 < buf.n →
      V1.ReadMetadata buf = .error (.headerTooLarge buf.n)) := by
  refine ⟨?_, ?_, ?_, ?_⟩
  · intro input h8 hsmall
    unfold V2.headerRead
    rw [if_neg (by omega), if_pos hsmall]
  · intro input h8 hlarge
    unfold V2.headerRead
    rw [if_neg (by omega), if_neg (by omega), if_pos (by omega)]
  · intro input hlen
    unfold V2.headerRead
    rw [if_pos hlen]
  · intro buf hn
    unfold V1.ReadMetadata
    rw [if_pos hn]

/-- C4 witness: the guards at concrete inputs: an all-zero prefix
(`N = 0 < 2`), a prefix encoding `2^63 - 8`, a 3-byte stream, and a
structural buffer whose header JSON is longer than `10^8` bytes by virtue
of its padding field. -/
theorem c4_header_size_guards_witness :
    V2.headerRead [0, 0, 0, 0, 0, 0, 0, 0] = .error (.sizeTooSmall 0)
    ∧ V2.headerRead [248, 255, 255, 255, 255, 255, 255, 127] =
        .error (.sizeTooLarge (2 ^ 63 - 8))
    ∧ V2.headerRead [1, 2, 3] = .error .sizeReadFailed
    ∧ V1.ReadMetadata ⟨[], 100000001, []⟩ =
        .error (.headerTooLarge (100000001 + 2)) := by
  refine ⟨?_, ?_, ?_, ?_⟩
  · exact (c4_header_size_guards.1 [0, 0, 0, 0, 0, 0, 0, 0] (by decide)
      (by decide)).trans (by rfl)
  · exact (c4_header_size_guards.2.1 [248, 255, 255, 255, 255, 255, 255, 127]
      (by decide) (by norm_num [V2.le64val])).trans (by norm_num [V2.le64val])
  · exact c4_header_size_guards.2.2.1 [1, 2, 3] (by decide)
  · exact (c4_header_size_guards.2.2.2 ⟨[], 100000001, []⟩
      (by norm_num [V1.Serialized.n, V1.headerJsonLen])).trans
      (by norm_num [V1.Serialized.n, V1.headerJsonLen])

theorem c4aux_decode : V2.readAndDecodeJSONBytes [123, 125] 200000000 =
    .ok [] := by
  unfold V2.readAndDecodeJSONBytes
  rw [List.take_of_length_le (by norm_num)]
  rw [show JB.parseVal (([123, 125] : List Nat).length + 1) [123, 125] =
      some (.jobj [], []) from rfl]
  dsimp only
  rw [show V2.decodeRawHeader (.jobj []) = some [] from rfl]
  dsimp only
  rw [if_pos (by norm_num), if_neg (by simp [JB.isWs])]

/-- C4 counterexample: a stream whose length prefix is `N = 2·10^8` —
above the ~10^8 default ceiling the claim describes — followed by the
two-byte header `"{}"`.  `header.Read` does **not** reject it with a
header-size-too-large error: it decodes the header successfully (its
actual ceiling is `2^63 - 9`). -/
theorem c4_counterexample :
    V2.headerRead (le8 200000000 ++ [123, 125]) = .ok ⟨[], [], 200000008⟩
    ∧ 100000000 < 200000000 := by
  refine ⟨?_, by norm_num⟩
  rw [show le8 200000000 ++ [123, 125] =
      [0, 194, 235, 11, 0, 0, 0, 0, 123, 125] from rfl]
  unfold V2.headerRead
  rw [show ([0, 194, 235, 11, 0, 0, 0, 0, 123, 125] : List Nat).take 8 =
      [0, 194, 235, 11, 0, 0, 0, 0] from rfl]
  rw [show V2.le64val [0, 194, 235, 11, 0, 0, 0, 0] = 200000000 from by
    norm_num [V2.le64val]]
  rw [if_neg (by norm_num), if_neg (by norm_num), if_neg (by norm_num)]
  rw [show ([0, 194, 235, 11, 0, 0, 0, 0, 123, 125] : List Nat).drop 8 =
      [123, 125] from rfl]
  rw [c4aux_decode]
  dsimp only
  rw [show V2.convertRawHeaderB [] = .ok ([], []) from rfl]

namespace V1

/-- Total byte length of the views' data. -/
def dataLenSum (l : List (String × TensorView)) : Nat :=
  (l.map fun p => p.2.data.length).sum

/-- A valid view for the round trip: its byte length is the product of its
shape entries times its dtype's element size, and the `uint64` shape
arithmetic stays in range (entries and prefix products below `2^64`). -/
def viewOk (v : TensorView) : Prop :=
  v.data.length = v.shape.prod * v.dType.size
  ∧ (∀ x ∈ v.shape, x < 2 ^ 64)
  ∧ (∀ i ≤ v.shape.length, (v.shape.take i).prod < 2 ^ 64)
  ∧ v.shape.prod * v.dType.size < 2 ^ 64

instance viewOk.inst (v : TensorView) : Decidable (viewOk v) := by
  unfold viewOk
  infer_instance

def lookupS {α : Type} : List (String × α) → String → Option α
  | [], _ => none
  | (k0, v) :: rest, k => if k0 = k then some v else lookupS rest k

theorem assignOffsets_cons_nowrap (name : String) (v : TensorView)
    (rest : List (String × TensorView)) (c : Nat)
    (h : c + v.data.length < 2 ^ 64) :
    assignOffsets ((name, v) :: rest) c =
      (name, ⟨v.dType, v.shape, c, c + v.data.length⟩)
        :: assignOffsets rest (c + v.data.length) := by
  have h1 : v.data.length % 2 ^ 64 = v.data.length :=
    Nat.mod_eq_of_lt (by omega)
  have h2 : (c + v.data.length) % 2 ^ 64 = c + v.data.length :=
    Nat.mod_eq_of_lt h
  rw [show assignOffsets ((name, v) :: rest) c =
      (name, ⟨v.dType, v.shape, c, (c + v.data.length % 2 ^ 64) % 2 ^ 64⟩)
        :: assignOffsets rest ((c + v.data.length % 2 ^ 64) % 2 ^ 64) from rfl]
  rw [h1, h2]

theorem assignOffsets_names (l : List (String × TensorView)) (c : Nat) :
    (assignOffsets l c).map Prod.fst = l.map Prod.fst := by
  induction l generalizing c with
  | nil => rfl
  | cons p rest ih =>
    obtain ⟨name, v⟩ := p
    simp [assignOffsets, ih]

theorem dataLenSum_cons (p : String × TensorView)
    (rest : List (String × TensorView)) :
    dataLenSum (p :: rest) = p.2.data.length + dataLenSum rest := by
  simp [dataLenSum]

theorem assignOffsets_sorted (l : List (String × TensorView)) (c : Nat)
    (hnw : c + dataLenSum l < 2 ^ 64) :
    (assignOffsets l c).Sorted infoLe
    ∧ ∀ q ∈ assignOffsets l c, c ≤ q.2.off0 ∧ q.2.off0 ≤ q.2.off1 := by
  induction l generalizing c with
  | nil => exact ⟨List.sorted_nil, by intro q hq; simp [assignOffsets] at hq⟩
  | cons p rest ih =>
    obtain ⟨name, v⟩ := p
    rw [dataLenSum_cons] at hnw
    dsimp only at hnw
    have hcons := assignOffsets_cons_nowrap name v rest c (by omega)
    obtain ⟨hs, hb⟩ := ih (c + v.data.length) (by omega)
    rw [hcons]
    constructor
    · rw [List.sorted_cons]
      refine ⟨?_, hs⟩
      intro q hq
      obtain ⟨hq1, hq2⟩ := hb q hq
      unfold infoLe
      dsimp only
      omega
    · intro q hq
      rcases List.mem_cons.1 hq with rfl | hq
      · dsimp only
        omega
      · have := hb q hq
        omega

theorem metadataNumElementsLoop_ok (s : List Nat) : ∀ acc : Nat,
    acc < 2 ^ 64 → (∀ v ∈ s, v < 2 ^ 64) →
    (∀ i ≤ s.length, acc * (s.take i).prod < 2 ^ 64) →
    metadataNumElementsLoop acc s = .ok (acc * s.prod) := by
  induction s with
  | nil =>
    intro acc hacc hv hfit
    simp [metadataNumElementsLoop]
  | cons v rest ih =>
    intro acc hacc hv hfit
    have hv64 : v < 2 ^ 64 := hv v (by simp)
    have hmul : acc * v < 2 ^ 64 := by
      have := hfit 1 (by simp)
      simpa using this
    have hcm : checkedMul acc v = .ok (acc * v) := by
      rw [checkedMul_eq acc v hacc hv64, if_pos hmul]
    unfold metadataNumElementsLoop
    rw [hcm]
    dsimp only
    have hrec := ih (acc * v) hmul (fun u hu => hv u (List.mem_cons_of_mem v hu))
      (fun i hi => by
        have := hfit (i + 1) (by simpa using hi)
        simpa [Nat.mul_assoc] using this)
    rw [hrec]
    simp [Nat.mul_assoc]

theorem assignOffsets_validate (l : List (String × TensorView)) (c : Nat)
    (hnw : c + dataLenSum l < 2 ^ 64) (hok : ∀ p ∈ l, viewOk p.2) :
    metadataValidateLoop (assignOffsets l c) c = .ok (c + dataLenSum l) := by
  induction l generalizing c with
  | nil =>
    simp [assignOffsets, metadataValidateLoop, dataLenSum]
  | cons p rest ih =>
    obtain ⟨name, v⟩ := p
    rw [dataLenSum_cons] at hnw
    dsimp only at hnw
    obtain ⟨hlen, hsh, hfit, hbyte⟩ := hok (name, v) (by simp)
    dsimp only at hlen hsh hfit hbyte
    rw [assignOffsets_cons_nowrap name v rest c (by omega)]
    unfold metadataValidateLoop
    dsimp only
    rw [if_neg (by omega)]
    have hprod : v.shape.prod < 2 ^ 64 := by
      have := hfit v.shape.length (le_refl _)
      simpa using this
    have hne : metadataNumElements v.shape = .ok v.shape.prod := by
      unfold metadataNumElements
      have := metadataNumElementsLoop_ok v.shape 1 (by norm_num) hsh
        (fun i hi => by simpa using hfit i hi)
      simpa using this
    rw [hne]
    dsimp only
    have hcm : checkedMul v.shape.prod v.dType.size =
        .ok (v.shape.prod * v.dType.size) := by
      rw [checkedMul_eq _ _ hprod (by cases v.dType <;> norm_num [DType.size]),
        if_pos hbyte]
    rw [hcm]
    dsimp only
    rw [if_neg (by omega)]
    have hrec := ih (c + v.data.length) (by omega)
      (fun q hq => hok q (List.mem_cons_of_mem _ hq))
    rw [hrec, dataLenSum_cons]
    dsimp only
    congr 1
    omega

theorem views_slice (l : List (String × TensorView)) (c : Nat)
    (pre suf : List Nat) (hpre : pre.length = c)
    (hnw : c + dataLenSum l < 2 ^ 64) :
    (assignOffsets l c).map (fun q =>
      (q.1, TensorView.mk q.2.dType q.2.shape
        (sliceData (pre ++ ((l.map fun p => p.2.data).flatten ++ suf))
          q.2.off0 q.2.off1))) = l := by
  induction l generalizing c pre with
  | nil => rfl
  | cons p rest ih =>
    obtain ⟨name, v⟩ := p
    rw [dataLenSum_cons] at hnw
    dsimp only at hnw
    rw [assignOffsets_cons_nowrap name v rest c (by omega), List.map_cons]
    rw [show pre ++ ((((name, v) :: rest).map fun p => p.2.data).flatten ++ suf)
        = (pre ++ v.data) ++ (((rest.map fun p => p.2.data).flatten) ++ suf)
        from by simp]
    congr 1
    · dsimp only
      rw [show sliceData
          ((pre ++ v.data) ++ (((rest.map fun p => p.2.data).flatten) ++ suf))
          c (c + v.data.length) = v.data from by
        unfold sliceData
        rw [show c + v.data.length - c = v.data.length from by omega]
        rw [List.append_assoc, ← hpre, List.drop_left, List.take_left]]
    · exact ih (c + v.data.length) (pre ++ v.data) (by simp [hpre]) (by omega)

theorem upsertW_not_mem (acc : List (String × WEntry)) (k : String)
    (v : WEntry) (h : k ∉ acc.map Prod.fst) :
    upsertW acc k v = acc ++ [(k, v)] := by
  induction acc with
  | nil => rfl
  | cons p rest ih =>
    obtain ⟨k0, v0⟩ := p
    simp only [List.map_cons, List.mem_cons] at h
    push_neg at h
    unfold upsertW
    rw [if_neg (fun hc => h.1 hc.symm), ih h.2]
    rfl

theorem foldl_upsert (ts : List (String × TensorInfo)) :
    ∀ acc : List (String × WEntry),
    (ts.map Prod.fst).Nodup →
    (∀ k ∈ ts.map Prod.fst, k ∉ acc.map Prod.fst) →
    ts.foldl (fun a p => upsertW a p.1 (.tensor p.2)) acc
      = acc ++ ts.map (fun p => (p.1, WEntry.tensor p.2)) := by
  induction ts with
  | nil =>
    intro acc _ _
    simp
  | cons t rest ih =>
    intro acc hnd hdisj
    simp only [List.map_cons, List.nodup_cons] at hnd
    have hd2 : ∀ k ∈ rest.map Prod.fst,
        k ∉ (acc ++ [(t.1, WEntry.tensor t.2)]).map Prod.fst := by
      intro k hk
      rw [List.map_append]
      simp only [List.mem_append, List.map_cons, List.map_nil,
        List.mem_singleton]
      rintro (hka | hkt)
      · exact hdisj k (by simp [hk]) hka
      · exact hnd.1 (hkt ▸ hk)
    simp only [List.foldl_cons]
    rw [upsertW_not_mem acc t.1 (WEntry.tensor t.2) (hdisj t.1 (by simp))]
    rw [ih (acc ++ [(t.1, WEntry.tensor t.2)]) hnd.2 hd2]
    simp

theorem unmarshalLoop_tensors (ts : List (String × TensorInfo)) :
    ∀ (md : List (String × String)) (acc : List (String × TensorInfo)),
    (∀ k ∈ ts.map Prod.fst, k ≠ "__metadata__") →
    unmarshalLoop (ts.map fun p => (p.1, WEntry.tensor p.2)) md acc =
      .ok (md, acc ++ ts) := by
  induction ts with
  | nil =>
    intro md acc _
    simp [unmarshalLoop]
  | cons t rest ih =>
    intro md acc hk
    obtain ⟨k, i⟩ := t
    simp only [List.map_cons]
    unfold unmarshalLoop
    rw [if_neg (hk k (by simp))]
    dsimp only [unmarshalTensorEntry]
    rw [ih md (acc ++ [(k, i)]) (fun k2 hk2 => hk k2 (by simp [hk2]))]
    simp

theorem unmarshalLoop_meta (kvs : List (String × String))
    (rest : List (String × WEntry)) (md : List (String × String))
    (ts : List (String × TensorInfo)) :
    unmarshalLoop (("__metadata__", WEntry.meta kvs) :: rest) md ts =
      unmarshalLoop rest kvs ts := by
  conv_lhs => rw [unmarshalLoop]
  rw [if_pos rfl]
  dsimp only [unmarshalMetaEntry]

theorem unmarshal_of_marshal (md : List (String × String))
    (ts : List (String × TensorInfo))
    (hnd : (ts.map Prod.fst).Nodup)
    (hm : "__metadata__" ∉ ts.map Prod.fst) :
    unmarshalMetadata (marshalMetadata (newMetadata md ts)) =
      .ok (newMetadata md (List.insertionSort infoLe ts)) := by
  unfold marshalMetadata unmarshalMetadata newMetadata
  dsimp only
  by_cases hmd : md.isEmpty
  · rw [if_pos hmd]
    rw [foldl_upsert ts [] hnd (by simp)]
    rw [List.nil_append]
    rw [unmarshalLoop_tensors ts [] []
      (fun k hk => fun hcon => hm (hcon ▸ hk))]
    dsimp only
    rw [List.isEmpty_iff.1 hmd]
    simp
  · rw [if_neg hmd]
    rw [foldl_upsert ts [("__metadata__", .meta md)] hnd ?_]
    · rw [List.singleton_append]
      rw [unmarshalLoop_meta md (ts.map (fun p => (p.1, WEntry.tensor p.2)))
        [] []]
      rw [unmarshalLoop_tensors ts md []
        (fun k hk => fun hcon => hm (hcon ▸ hk))]
      simp
    · intro k hk
      simp only [List.map_cons, List.map_nil, List.mem_singleton]
      intro hcon
      exact hm (hcon ▸ hk)

theorem lookupS_of_mem {α : Type} (l : List (String × α)) (p : String × α)
    (hnd : (l.map Prod.fst).Nodup) (hp : p ∈ l) :
    lookupS l p.1 = some p.2 := by
  induction l with
  | nil => simp at hp
  | cons q rest ih =>
    simp only [List.map_cons, List.nodup_cons] at hnd
    rcases List.mem_cons.1 hp with rfl | hp
    · unfold lookupS
      rw [if_pos rfl]
    · unfold lookupS
      rw [if_neg ?_]
      · exact ih hnd.2 hp
      · intro hcon
        exact hnd.1 (hcon ▸ List.mem_map_of_mem Prod.fst hp)

end V1

/-- C1 (amended): the map-based round trip holds for every tensor map with
distinct names none of which is `__metadata__`, every view of which has
byte length `product(shape) * size(dtype)` with the `uint64` shape
arithmetic in range, whose total data length stays below `2^64`, and whose
padded header length fits the `maxHeaderSize` ceiling: `Deserialize` of
`Serialize` succeeds, returns the same string metadata, and every input
name looks up a view with the same dtype, shape and byte-for-byte data. -/
theorem c1_roundtrip (dataMap : List (String × V1.TensorView))
    (dataInfo : List (String × String))
    (hnd : (dataMap.map Prod.fst).Nodup)
    (hmk : "__metadata__" ∉ dataMap.map Prod.fst)
    (hok : ∀ p ∈ dataMap, V1.viewOk p.2)
    (htot : V1.dataLenSum dataMap < 2 ^ 64)
    (hceil : (V1.Serialize dataMap dataInfo).n ≤ 100000000) :
    ∃ st : V1.SafeTensors,
      V1.Deserialize (V1.Serialize dataMap dataInfo) = .ok st
      ∧ st.metadata.metadata = dataInfo
      ∧ ∀ p ∈ dataMap,
          V1.lookupS (V1.tensorViews st) p.1 = some p.2 := by
  have hperm : List.Perm (V1.prepareSort dataMap) dataMap :=
    List.perm_insertionSort V1.prepLe dataMap
  have hpermf : List.Perm ((V1.prepareSort dataMap).map Prod.fst)
      (dataMap.map Prod.fst) := hperm.map Prod.fst
  have hndS : ((V1.prepareSort dataMap).map Prod.fst).Nodup :=
    hpermf.nodup_iff.2 hnd
  have hmkS : "__metadata__" ∉ (V1.prepareSort dataMap).map Prod.fst :=
    fun h => hmk (hpermf.mem_iff.1 h)
  have hokS : ∀ p ∈ V1.prepareSort dataMap, V1.viewOk p.2 :=
    fun p hp => hok p (hperm.mem_iff.1 hp)
  have htotS : V1.dataLenSum (V1.prepareSort dataMap) =
      V1.dataLenSum dataMap := by
    unfold V1.dataLenSum
    exact List.Perm.sum_eq (hperm.map _)
  have hnwS : 0 + V1.dataLenSum (V1.prepareSort dataMap) < 2 ^ 64 := by
    omega
  have hsorted : (V1.assignOffsets (V1.prepareSort dataMap) 0).Sorted
      V1.infoLe := (V1.assignOffsets_sorted (V1.prepareSort dataMap) 0 hnwS).1
  have hnames : (V1.assignOffsets (V1.prepareSort dataMap) 0).map Prod.fst =
      (V1.prepareSort dataMap).map Prod.fst :=
    V1.assignOffsets_names (V1.prepareSort dataMap) 0
  have hndI : ((V1.assignOffsets (V1.prepareSort dataMap) 0).map
      Prod.fst).Nodup := by
    rw [hnames]
    exact hndS
  have hmkI : "__metadata__" ∉ (V1.assignOffsets (V1.prepareSort dataMap)
      0).map Prod.fst := by
    rw [hnames]
    exact hmkS
  have hum := V1.unmarshal_of_marshal dataInfo
    (V1.assignOffsets (V1.prepareSort dataMap) 0) hndI hmkI
  rw [List.Sorted.insertionSort_eq hsorted] at hum
  have hval := V1.assignOffsets_validate (V1.prepareSort dataMap) 0 hnwS hokS
  have hdlen : (V1.Serialize dataMap dataInfo).data.length =
      V1.dataLenSum (V1.prepareSort dataMap) := by
    show ((((V1.prepareSort dataMap).map Prod.snd).map
      (fun v => v.data)).flatten).length = _
    rw [List.length_flatten, List.map_map, List.map_map]
    rfl
  have hread : V1.ReadMetadata (V1.Serialize dataMap dataInfo) =
      .ok ((V1.Serialize dataMap dataInfo).n,
        ⟨dataInfo, V1.assignOffsets (V1.prepareSort dataMap) 0⟩) := by
    unfold V1.ReadMetadata
    rw [if_neg (by omega)]
    rw [show (V1.Serialize dataMap dataInfo).header =
        V1.marshalMetadata (V1.newMetadata dataInfo
          (V1.assignOffsets (V1.prepareSort dataMap) 0)) from rfl]
    rw [hum]
    dsimp only
    rw [show V1.metadataValidate (V1.newMetadata dataInfo
        (V1.assignOffsets (V1.prepareSort dataMap) 0)) =
        V1.metadataValidateLoop
          (V1.assignOffsets (V1.prepareSort dataMap) 0) 0 from rfl]
    rw [hval]
    dsimp only
    rw [if_neg (by rw [hdlen]; omega)]
    rfl
  refine ⟨⟨⟨dataInfo, V1.assignOffsets (V1.prepareSort dataMap) 0⟩,
    (V1.Serialize dataMap dataInfo).data⟩, ?_, rfl, ?_⟩
  · unfold V1.Deserialize
    rw [hread]
  · have hbuf : ((V1.prepareSort dataMap).map Prod.snd).map
        (fun v => v.data) =
        (V1.prepareSort dataMap).map (fun p => p.2.data) := by
      rw [List.map_map]
      rfl
    have hviews : V1.tensorViews
        ⟨⟨dataInfo, V1.assignOffsets (V1.prepareSort dataMap) 0⟩,
          (V1.Serialize dataMap dataInfo).data⟩ =
        V1.prepareSort dataMap := by
      show (V1.assignOffsets (V1.prepareSort dataMap) 0).map
        (fun q => (q.1, V1.TensorView.mk q.2.dType q.2.shape
          (V1.sliceData
            ((((V1.prepareSort dataMap).map Prod.snd).map
              (fun v => v.data)).flatten)
            q.2.off0 q.2.off1))) = V1.prepareSort dataMap
      rw [hbuf]
      have hv := V1.views_slice (V1.prepareSort dataMap) 0 [] [] rfl hnwS
      simp only [List.nil_append, List.append_nil] at hv
      exact hv
    intro p hp
    rw [hviews]
    exact V1.lookupS_of_mem (V1.prepareSort dataMap) p hndS
      (hperm.mem_iff.2 hp)

theorem c1_roundtrip_witness :
    ∃ st : V1.SafeTensors,
      V1.Deserialize (V1.Serialize
        [("t", V1.TensorView.mk V1.DType.U8 [1] [7])] [("k", "v")]) =
        .ok st
      ∧ st.metadata.metadata = [("k", "v")]
      ∧ ∀ p ∈ [("t", V1.TensorView.mk V1.DType.U8 [1] [7])],
          V1.lookupS (V1.tensorViews st) p.1 = some p.2 :=
  c1_roundtrip [("t", V1.TensorView.mk V1.DType.U8 [1] [7])] [("k", "v")]
    (by decide) (by decide) (by decide) (by decide) (by decide)

/-- A view actually named `__metadata__` (valid per the original claim:
its byte length is `product(shape) * size(dtype)`) breaks the round trip:
`MarshalJSON` stores it over the metadata slot and decode then rejects the
tensor object found under the `__metadata__` key. -/
theorem c1_counterexample :
    V1.Deserialize (V1.Serialize
      [("__metadata__", V1.TensorView.mk V1.DType.U8 [1] [7])] []) =
      .error V1.DErr.metadataNonString := by
  decide
